import Mathlib

/-!
Verification development for the kalamine keyboard-layout compiler
(`src/kalamine/layout.py`).

Modelling conventions:
* Python strings are modelled as `List Char`; a one-character string `"x"`
  is `['x']` and the blank cell `" "` is `blank = [' ']`.
* Python dictionaries are modelled as association lists (`List (key × value)`)
  with Python's update semantics (`pySet`): updating an existing key keeps its
  position, a new key is appended.  `dictGet` is `d[k]` as an `Option`.
* The six layers (`self.layers`, a list of six dicts) are modelled as a
  function `Nat → Dict`; indices follow the `Layer` enum of `kalamine.utils`
  (modelled from the spec, §3: BASE = 0, SHIFT = 1, ODK = 2, ODK_SHIFT = 3,
  ALTGR = 4, ALTGR_SHIFT = 5 — three adjacent pairs).
* Fallible code (Python `KeyError` / `IndexError`) is modelled with `Option`.
* Python's `str.upper()` / `str.lower()` (the runtime's Unicode simple case
  mapping) are modelled by `pyCharUpper` / `pyCharLower`: ASCII case mapping
  plus the non-ASCII case pairs relevant to this development, identity
  elsewhere.
* Reading `line[i-1]` with `i = 0` would be Python negative indexing (last
  character); the model truncates `0 - 1` to `0`.  All theorems assume row
  offsets `≥ 1` (true of the geometry table), where both agree.
-/

/-- Blank cell value, Python `" "`. -/
def blank : List Char := [' ']

/-- Models Python `str.lower()` on one character: ASCII `A`–`Z`, plus the
non-ASCII case pairs used in this development (`À`, `É`, `Â`, `ẞ`),
identity elsewhere. -/
def pyCharLower (c : Char) : Char :=
  if 65 ≤ c.toNat ∧ c.toNat ≤ 90 then Char.ofNat (c.toNat + 32)
  else if c = Char.ofNat 0xC0 then Char.ofNat 0xE0
  else if c = Char.ofNat 0xC9 then Char.ofNat 0xE9
  else if c = Char.ofNat 0xC2 then Char.ofNat 0xE2
  else if c = Char.ofNat 0x1E9E then Char.ofNat 0xDF
  else c

/-- Models Python `str.upper()` on one character: ASCII `a`–`z`, plus the
non-ASCII case pairs used in this development (`à`, `é`, `â`, and the micro
sign whose Python uppercase is greek capital Mu), identity elsewhere. -/
def pyCharUpper (c : Char) : Char :=
  if 97 ≤ c.toNat ∧ c.toNat ≤ 122 then Char.ofNat (c.toNat - 32)
  else if c = Char.ofNat 0xE0 then Char.ofNat 0xC0
  else if c = Char.ofNat 0xE9 then Char.ofNat 0xC9
  else if c = Char.ofNat 0xE2 then Char.ofNat 0xC2
  else if c = Char.ofNat 0xB5 then Char.ofNat 0x39C
  else c

/-- Python `s.lower()` on a short string, character-wise. -/
def pyLower (l : List Char) : List Char := l.map pyCharLower

/-- Python `s.upper()` on a short string, character-wise. -/
def pyUpper (l : List Char) : List Char := l.map pyCharUpper

/-- The `custom_alpha` table of `upper_key` (layout.py lines 47–58),
with the source's `\u` escapes kept as code points. -/
def customAlpha : List (List Char × List Char) :=
  [ ([Char.ofNat 0xDF],   [Char.ofNat 0x1E9E]),
    ([Char.ofNat 0x7C],   [Char.ofNat 0xA6]),
    ([Char.ofNat 0x3C],   [Char.ofNat 0x2264]),
    ([Char.ofNat 0x3E],   [Char.ofNat 0x2265]),
    ([Char.ofNat 0x2020], [Char.ofNat 0x2021]),
    ([Char.ofNat 0x2190], [Char.ofNat 0x21D0]),
    ([Char.ofNat 0x2191], [Char.ofNat 0x21D1]),
    ([Char.ofNat 0x2192], [Char.ofNat 0x21D2]),
    ([Char.ofNat 0x2193], [Char.ofNat 0x21D3]),
    ([Char.ofNat 0xB5],   [' ']) ]

/-- `dictGet d k` is Python `d.get(k)`: the value of the first pair whose key
is `k`. -/
def dictGet {κ α : Type} [DecidableEq κ] : List (κ × α) → κ → Option α
  | [], _ => none
  | p :: rest, k => if p.1 = k then some p.2 else dictGet rest k

/-- `upper_key` (layout.py lines 40–65): presentation helper giving the upper
character of a key, blank when it is obvious or absent. -/
def upper_key (letter : List Char) : List Char :=
  if letter.length ≠ 1 then blank
  else
    match dictGet customAlpha letter with
    | some u => u
    | none =>
      if pyUpper letter ≠ pyLower letter then pyUpper letter else blank

/-- `pySet d k v` is Python `d[k] = v`: replace in place if the key exists,
append otherwise. -/
def pySet {κ α : Type} [DecidableEq κ] : List (κ × α) → κ → α → List (κ × α)
  | [], k, v => [(k, v)]
  | p :: rest, k, v => if p.1 = k then (k, v) :: rest else p :: pySet rest k v

/-- A layer: a dict from key identifiers to cell values. -/
abbrev Dict := List (String × List Char)

/-- `self.layers`: six dicts, indexed by layer number. -/
abbrev Layers := Nat → Dict

def emptyLayers : Layers := fun _ => []

/-- `self.layers[L][key] = v`. -/
def setLayers (ls : Layers) (L : Nat) (key : String) (v : List Char) : Layers :=
  fun n => if n = L then pySet (ls L) key v else ls n

/-- One dead-key definition of the catalog (`DEAD_KEYS` of `kalamine.utils`,
modelled from the spec §6: a `{char, base, alt}` triple; `alt_self` and
`alt_space` are added by the 1dk synthesis, absent on catalog entries). -/
structure DeadKey where
  char : List Char
  base : List Char
  alt : List Char
  alt_self : Option (List Char) := none
  alt_space : Option (List Char) := none
deriving DecidableEq, Repr

/-- `ODK_ID` of `kalamine.utils`: the reserved one-dead-key trigger `"**"`
(layout.py lines 485 and 492 compare cells against `"**"`). -/
def ODK_ID : List Char := ['*', '*']

/-- One row of the geometry table: column offset plus ordered key names. -/
structure Row where
  offset : Nat
  keys : List String

/-- State built by `_parse_template`: the layers and the registered
(per-layout copies of) active dead keys. -/
structure PSt where
  layers : Layers
  dead_keys : List (List Char × DeadKey)

def emptyPSt : PSt := ⟨emptyLayers, []⟩

/-- `col_offset` (layout.py lines 256–259 and 302–307): 0 for the BASE/SHIFT
pair, 2 for any other pair. -/
def colOffset (ln : Nat) : Nat := if ln = 0 then 0 else 2

/-- Reading one cell of a canvas line (layout.py lines 270–271):
the glyph at column `i`, prefixed with `"*"` when the marker column `i - 1`
holds `"*"`. -/
def cellRead (line : List Char) (i : Nat) : List Char :=
  (if line.getD (i - 1) ' ' = '*' then ['*'] else []) ++ [line.getD i ' ']

/-- The base cell value after presentation expansion (layout.py lines
270–274): on the BASE/SHIFT pair a blank base cell becomes the lowercase of
the shift cell. -/
def effBase (ln : Nat) (bl sl : List Char) (i : Nat) : List Char :=
  let base_key := cellRead bl i
  if ln = 0 ∧ base_key = blank then pyLower (cellRead sl i) else base_key

/-- The shift cell value after presentation expansion (layout.py lines
271–278): on a non-BASE pair a blank shift cell is inferred with
`upper_key`. -/
def effShift (ln : Nat) (bl sl : List Char) (i : Nat) : List Char :=
  let shift_key := cellRead sl i
  if ln ≠ 0 ∧ shift_key = blank then upper_key (effBase ln bl sl i) else shift_key

/-- Dead-key registration (layout.py lines 285–289): for every catalog entry
whose trigger equals the base or shift cell, store a copy in
`self.dead_keys`. -/
def registerDKs (dks : List DeadKey) (base_key shift_key : List Char)
    (d : List (List Char × DeadKey)) : List (List Char × DeadKey) :=
  dks.foldl
    (fun d dk =>
      let d := if base_key = dk.char then pySet d base_key dk else d
      if shift_key = dk.char then pySet d shift_key dk else d)
    d

/-- Body of the per-key loop of `_parse_template` (layout.py lines 269–289). -/
def parseKey (dks : List DeadKey) (ln : Nat) (bl sl : List Char) (i : Nat)
    (key : String) (st : PSt) : PSt :=
  let base_key := effBase ln bl sl i
  let shift_key := effShift ln bl sl i
  let st := if base_key ≠ blank
            then { st with layers := setLayers st.layers ln key base_key } else st
  let st := if shift_key ≠ blank
            then { st with layers := setLayers st.layers (ln + 1) key shift_key } else st
  { st with dead_keys := registerDKs dks base_key shift_key st.dead_keys }

/-- The `for key in keys` loop of `_parse_template`, stepping the column by 6
(layout.py lines 269–291). -/
def parseKeys (dks : List DeadKey) (ln : Nat) (bl sl : List Char) :
    Nat → List String → PSt → PSt
  | _, [], st => st
  | i, key :: ks, st => parseKeys dks ln bl sl (i + 6) ks (parseKey dks ln bl sl i key st)

/-- `_parse_template` (layout.py lines 253–293).  Each geometry row consumes
three canvas lines: line `3j+1` holds the shifted glyphs, line `3j+2` the base
glyphs (the loop on `j` is realised by dropping three lines per row). -/
def parseTemplate (dks : List DeadKey) (ln : Nat) :
    List (List Char) → List Row → PSt → PSt
  | _, [], st => st
  | tpl, r :: rs, st =>
    parseTemplate dks ln (tpl.drop 3) rs
      (parseKeys dks ln (tpl.getD 2 []) (tpl.getD 1 []) (r.offset + colOffset ln) r.keys st)

/-- Python `s[-1]` on a non-empty string. -/
def pyLast (l : List Char) : Char := l.getLastD ' '

/-- `len(v) == 2 and v[0] == "*"`: a dead-key cell (layout.py lines 326–327). -/
def deadCell (v : List Char) : Prop := v.length = 2 ∧ v.headD ' ' = '*'

instance (v : List Char) : Decidable (deadCell v) := by
  unfold deadCell; infer_instance

/-- Body of the per-key loop of `_fill_template` (layout.py lines 317–344),
on the base and shift cells it looks up (`base_key`, `shift_key`). -/
def fillCells (ln : Nat) (base_key shift_key : List Char) (i : Nat)
    (base shift : List Char) : List Char × List Char :=
  let dead_base := deadCell base_key
  let dead_shift := deadCell shift_key
  if ln = 0 then
    -- shift prevails
    let shift := shift.set i (pyLast shift_key)
    let shift := if dead_shift then shift.set (i - 1) '*' else shift
    if upper_key base_key ≠ shift_key then
      let base := base.set i (pyLast base_key)
      let base := if dead_base then base.set (i - 1) '*' else base
      (base, shift)
    else (base, shift)
  else
    let base := base.set i (pyLast base_key)
    let base := if dead_base then base.set (i - 1) '*' else base
    if upper_key base_key ≠ shift_key then
      let shift := shift.set i (pyLast shift_key)
      let shift := if dead_shift then shift.set (i - 1) '*' else shift
      (base, shift)
    else (base, shift)

/-- Looks up the two cells of a key (layout.py lines 318–324: absent entries
behave as blank) and fills them. -/
def fillKey (layers : Layers) (ln : Nat) (key : String) (i : Nat)
    (bs : List Char × List Char) : List Char × List Char :=
  fillCells ln ((dictGet (layers ln) key).getD blank)
    ((dictGet (layers (ln + 1)) key).getD blank) i bs.1 bs.2

/-- The `for key in keys` loop of `_fill_template` (layout.py lines 317–346). -/
def fillKeys (layers : Layers) (ln : Nat) :
    Nat → List String → List Char × List Char → List Char × List Char
  | _, [], bs => bs
  | i, key :: ks, bs => fillKeys layers ln (i + 6) ks (fillKey layers ln key i bs)

/-- `_fill_template` (layout.py lines 299–352): writes each row's base and
shift lines back into the canvas and returns it. -/
def fillTemplate (layers : Layers) (ln : Nat) :
    List (List Char) → List Row → List (List Char)
  | tpl, [] => tpl
  | tpl, r :: rs =>
    let res := fillKeys layers ln (r.offset + colOffset ln) r.keys
      (tpl.getD 2 [], tpl.getD 1 [])
    let tpl2 := (tpl.set 2 res.1).set 1 res.2
    tpl2.take 3 ++ fillTemplate layers ln (tpl2.drop 3) rs

/-- `layer_has_char` (layout.py lines 215–219): does some key of layer `L`
hold exactly the one-character value `c`? -/
def layer_has_char (layers : Layers) (c : Char) (L : Nat) : Bool :=
  (layers L).any fun p => p.2 = [c]

/-- The pruning loop body (layout.py lines 224–231) over the zipped
`base`/`alt` arrays: keep the pairs whose base character occurs as a value of
the BASE or SHIFT layer.  (Python indexes `alt[i]` and would raise
`IndexError` were `alt` shorter than `base`; the catalog guarantees equal
lengths, which the theorems assume.) -/
def pruneZip (layers : Layers) : List (Char × Char) → List Char × List Char
  | [] => ([], [])
  | p :: rest =>
    let (used_base, used_alt) := pruneZip layers rest
    if layer_has_char layers p.1 0 || layer_has_char layers p.1 1 then
      (p.1 :: used_base, p.2 :: used_alt)
    else (used_base, used_alt)

/-- Pruning one dead key (layout.py lines 221–233): reassign `base`/`alt` to
the kept pairs. -/
def pruneDK (layers : Layers) (dk : DeadKey) : DeadKey :=
  let r := pruneZip layers (dk.base.zip dk.alt)
  { dk with base := r.1, alt := r.2 }

/-- The 1dk copy loop (layout.py lines 246–251) for one pair: walk the items
of layer `i + 2` (the ODK plane of layer `i`); `self.layers[i][name]` raises
`KeyError` (modelled `none`) when the base glyph is missing; otherwise append
the pair unless it is the spacebar or the base glyph is the trigger itself. -/
def odkCopyLayer (layers : Layers) (i : Nat) :
    List (String × List Char) → DeadKey → Option DeadKey
  | [], odk => some odk
  | (name, alt_char) :: rest, odk =>
    match dictGet (layers i) name with
    | none => none
    | some base_char =>
      odkCopyLayer layers i rest
        (if name ≠ "spce" ∧ base_char ≠ ODK_ID
         then { odk with base := odk.base ++ base_char, alt := odk.alt ++ alt_char }
         else odk)

/-- The 1dk mutation of the ODK dead key (layout.py lines 238–251):
`alt_space`, `alt_self` (looked up on the first BASE key holding the trigger;
`self.layers[Layer.ODK][key]` raises on a missing entry), then the two copy
loops. -/
def odkUpdate (layers : Layers) (spc1dk : List Char) (odk : DeadKey) :
    Option DeadKey :=
  let odk := { odk with alt_space := some spc1dk }
  let step1 : Option DeadKey :=
    match (layers 0).find? (fun p => decide (p.2 = ODK_ID)) with
    | none => some odk
    | some kv =>
      match dictGet (layers 2) kv.1 with
      | none => none
      | some v => some { odk with alt_self := some v }
  step1.bind fun odk1 =>
    (odkCopyLayer layers 0 (layers 2) odk1).bind fun odk2 =>
      odkCopyLayer layers 1 (layers 3) odk2

/-- The `if ODK_ID in self.dead_keys` block (layout.py lines 236–251): runs
`odkUpdate` on the registered copy and sets `has_1dk`. -/
def odkPass (layers : Layers) (spc1dk : List Char)
    (dead_keys : List (List Char × DeadKey)) :
    Option (List (List Char × DeadKey) × Bool) :=
  match dictGet dead_keys ODK_ID with
  | none => some (dead_keys, false)
  | some odk =>
    (odkUpdate layers spc1dk odk).map fun d => (pySet dead_keys ODK_ID d, true)

/-- `SPACEBAR` (layout.py lines 121–127). -/
def SPACEBAR : Dict :=
  [("shift", [' ']), ("altgr", [' ']), ("altgr_shift", [' ']),
   ("1dk", [Char.ofNat 39]), ("1dk_shift", [Char.ofNat 39])]

/-- The descriptor fields used by the model-building part of
`KeyboardLayout.__init__`: the `base`/`full`/`altgr` text blocks (as canvas
lines), the `spacebar` override dict and the declared geometry name (`none`
when the descriptor has no `geometry` key, in which case `CONFIG`'s default
`"ISO"` — layout.py lines 115–119 — stays in `self.meta`). -/
structure Cfg where
  base : Option (List (List Char)) := none
  full : Option (List (List Char)) := none
  altgr : Option (List (List Char)) := none
  spacebar : List (String × List Char) := []
  geometry : Option String := none

/-- The finished model built by `KeyboardLayout.__init__`. -/
structure Model where
  layers : Layers
  dead_keys : List (List Char × DeadKey)
  dk_index : List (List Char)
  has_altgr : Bool
  has_1dk : Bool

/-- The `full`/`base`/`altgr` dispatch of `__init__` (layout.py lines
181–192): which templates are parsed for which layer pairs, and whether the
layout has an AltGr plane.  A missing `base` block is Python's `KeyError`. -/
def parseStage (dks : List DeadKey) (rows : List Row) (cfg : Cfg) :
    Option (PSt × Bool) :=
  match cfg.full with
  | some full =>
    let st := parseTemplate dks 0 full rows emptyPSt
    some (parseTemplate dks 4 full rows st, true)
  | none =>
    match cfg.base with
    | none => none
    | some b =>
      let st := parseTemplate dks 0 b rows emptyPSt
      let st := parseTemplate dks 2 b rows st
      match cfg.altgr with
      | some a => some (parseTemplate dks 4 a rows st, true)
      | none => some (st, false)

/-- The space-bar assignments of `__init__` (layout.py lines 199–207). -/
def spacebarStage (ls : Layers) (spc : Dict) (has_altgr : Bool) : Layers :=
  let layers := setLayers ls 0 "spce" blank
  let layers := setLayers layers 1 "spce" ((dictGet spc "shift").getD blank)
  let layers := setLayers layers 2 "spce" ((dictGet spc "1dk").getD blank)
  let layers := setLayers layers 3 "spce"
    (match dictGet spc "shift_1dk" with
     | some v => v
     | none => (dictGet spc "1dk").getD blank)
  if has_altgr then
    setLayers (setLayers layers 4 "spce" ((dictGet spc "altgr").getD blank))
      5 "spce" ((dictGet spc "altgr_shift").getD blank)
  else layers

/-- The model-building part of `KeyboardLayout.__init__` (layout.py lines
179–251), parameterized by the geometry table `geom` and the dead-key catalog
`dks` (external data, spec §6).  An unknown geometry name (line 180), a
missing `base` block (line 187) and the 1dk `KeyError`s are modelled as
`none`. -/
def buildLayout (geom : List (String × List Row)) (dks : List DeadKey)
    (cfg : Cfg) : Option Model :=
  match dictGet geom (cfg.geometry.getD "ISO") with
  | none => none
  | some rows =>
    match parseStage dks rows cfg with
    | none => none
    | some (st, has_altgr) =>
      -- space bar (layout.py lines 195–207)
      let spc := cfg.spacebar.foldl (fun d p => pySet d p.1 p.2) SPACEBAR
      let layers := spacebarStage st.layers spc has_altgr
      -- active dead keys: self.dk_index (layout.py lines 210–212)
      let dk_index := dks.filterMap fun dk =>
        if (dictGet st.dead_keys dk.char).isSome then some dk.char else none
      -- pruning (layout.py lines 214–233)
      let pruned := st.dead_keys.map fun p => (p.1, pruneDK layers p.2)
      -- 1dk behavior (layout.py lines 236–251)
      match odkPass layers ((dictGet spc "1dk").getD blank) pruned with
      | none => none
      | some (dead_keys, has_1dk) =>
        some ⟨layers, dead_keys, dk_index, has_altgr, has_1dk⟩

/-! ### Heap-instrumented dead-key registration and pruning (for the catalog
frame property).  Python dictionaries are objects: `dk.copy()` allocates a new
object, and pruning writes through the references held in `self.dead_keys`.
The heap is a list of `DeadKey` cells; the catalog occupies the initial
addresses, and `self.dead_keys` maps triggers to addresses. -/

def defaultDK : DeadKey := ⟨[], [], [], none, none⟩

structure HSt where
  heap : List DeadKey
  dkrefs : List (List Char × Nat)

/-- Dead-key registration (layout.py lines 285–289) on the heap: `DEAD_KEYS`
is the catalog prefix (addresses `0..n-1`); `dk.copy()` allocates a fresh
cell at the end of the heap. -/
def registerDKsH (n : Nat) (base_key shift_key : List Char) (st : HSt) : HSt :=
  (List.range n).foldl
    (fun st a =>
      let dk := st.heap.getD a defaultDK
      let st := if base_key = dk.char
                then ⟨st.heap ++ [dk], pySet st.dkrefs base_key st.heap.length⟩
                else st
      if shift_key = dk.char
      then ⟨st.heap ++ [dk], pySet st.dkrefs shift_key st.heap.length⟩
      else st)
    st

/-- `_parse_template` on the heap state: only the dead-key registration of
each visited key matters (the cells are read off the canvas exactly as in
`parseKey`). -/
def parseKeysH (n : Nat) (ln : Nat) (bl sl : List Char) :
    Nat → List String → HSt → HSt
  | _, [], st => st
  | i, _ :: ks, st =>
    parseKeysH n ln bl sl (i + 6) ks
      (registerDKsH n (effBase ln bl sl i) (effShift ln bl sl i) st)

def parseTemplateH (n : Nat) (ln : Nat) : List (List Char) → List Row → HSt → HSt
  | _, [], st => st
  | tpl, r :: rs, st =>
    parseTemplateH n ln (tpl.drop 3) rs
      (parseKeysH n ln (tpl.getD 2 []) (tpl.getD 1 []) (r.offset + colOffset ln) r.keys st)

/-- The pruning loop (layout.py lines 221–233) on the heap: for each
registered dead key, reassign `base`/`alt` through its reference. -/
def pruneRefs (layers : Layers) : List (List Char × Nat) → List DeadKey → List DeadKey
  | [], h => h
  | r :: rest, h =>
    pruneRefs layers rest (h.set r.2 (pruneDK layers (h.getD r.2 defaultDK)))

/-- The 1dk mutation (layout.py lines 236–251) on the heap: writes through
the `ODK_ID` reference (a raised `KeyError` aborts the compilation before the
write completes; the heap holds the cells unchanged either way). -/
def odkHeapStep (layers : Layers) (spc1dk : List Char)
    (refs : List (List Char × Nat)) (h : List DeadKey) : List DeadKey :=
  match dictGet refs ODK_ID with
  | none => h
  | some a =>
    match odkUpdate layers spc1dk (h.getD a defaultDK) with
    | none => h
    | some d => h.set a d

/-- One compilation's effect on the dead-key heap: any sequence of
`_parse_template` calls (template, rows, layer pair), then pruning, then the
1dk pass.  `layers` and `spc1dk` are the layout's layers and 1dk spacebar
value, free parameters here since only the heap writes matter. -/
def compileHeapDK (dks : List DeadKey) (layers : Layers) (spc1dk : List Char)
    (parses : List (List (List Char) × List Row × Nat)) : List DeadKey :=
  let st := parses.foldl
    (fun st pr => parseTemplateH dks.length pr.2.2 pr.1 pr.2.1 st) ⟨dks, []⟩
  odkHeapStep layers spc1dk st.dkrefs (pruneRefs layers st.dkrefs st.heap)

/-! ### Spec-side definitions and claim predicates -/

/-- The cell-value invariant maintained by `_parse_template`: a stored value
is a single non-space character, or a two-character dead-key cell starting
with the marker. -/
def GoodCell (v : List Char) : Prop :=
  (∃ c, c ≠ ' ' ∧ v = [c]) ∨ (∃ c, v = ['*', c])

/-- No base character is paired with two different alt characters. -/
def pairConsistent (d : DeadKey) : Prop :=
  List.Pairwise (fun p q => p.1 = q.1 → p.2 = q.2) (d.base.zip d.alt)

instance (d : DeadKey) : Decidable (pairConsistent d) := by
  unfold pairConsistent; infer_instance

/-- The (base glyph, ODK glyph) pairs the 1dk copy loop appends for layer
pair `i ∈ {0, 1}` when it succeeds, over an item list: the loop's own
filter — skip the spacebar and pairs whose layer-`i` glyph is the trigger. -/
def odkPairsOver (layers : Layers) (i : Nat) (items : List (String × List Char)) :
    List (List Char × List Char) :=
  items.filterMap fun p =>
    match dictGet (layers i) p.1 with
    | some b => if p.1 ≠ "spce" ∧ b ≠ ODK_ID then some (b, p.2) else none
    | none => none

def odkPairsSpec (layers : Layers) (i : Nat) : List (List Char × List Char) :=
  odkPairsOver layers i (layers (i + 2))

/-- Modelled from the claim's words (C5): the appended pairs with every key
“whose BASE value is the ODK trigger itself” excluded — the exclusion reads
layer 0 for both the BASE and the SHIFT pass. -/
def odkPairsClaim (layers : Layers) (i : Nat) : List (List Char × List Char) :=
  (layers (i + 2)).filterMap fun p =>
    match dictGet (layers i) p.1 with
    | some b =>
      if p.1 ≠ "spce" ∧ dictGet (layers 0) p.1 ≠ some ODK_ID then some (b, p.2) else none
    | none => none

/-- Extending a dead key with a list of appended pairs (the net effect of a
successful 1dk copy loop). -/
def odkExtend (odk : DeadKey) (pairs : List (List Char × List Char)) : DeadKey :=
  { odk with base := odk.base ++ (pairs.map Prod.fst).flatten,
             alt := odk.alt ++ (pairs.map Prod.snd).flatten }

/-- All key identifiers of a row list. -/
def allKeys (rows : List Row) : List String := (rows.map Row.keys).flatten

/-- A canvas line is fresh for keys at columns `i0 + 6p`, `p < n`: long
enough, and blank at each glyph and marker column. -/
def freshLine (line : List Char) (i0 n : Nat) : Bool :=
  (List.range n).all fun p =>
    let i := i0 + 6 * p
    decide (i < line.length) && (line.getD i ' ' == ' ') && (line.getD (i - 1) ' ' == ' ')

/-- A template is fresh for a row list and layer pair: three lines per row,
with both glyph lines blank at every key's glyph and marker columns. -/
def freshTpl (ln : Nat) : List (List Char) → List Row → Bool
  | _, [] => true
  | tpl, r :: rs =>
    decide (3 ≤ tpl.length) &&
    freshLine (tpl.getD 1 []) (r.offset + colOffset ln) r.keys.length &&
    freshLine (tpl.getD 2 []) (r.offset + colOffset ln) r.keys.length &&
    freshTpl ln (tpl.drop 3) rs

/-! ### Concrete inputs used by counterexamples, failing inputs and
witnesses -/

/-- A line of length `n` holding the assigned characters, spaces elsewhere. -/
def mkLine (n : Nat) (assign : List (Nat × Char)) : List Char :=
  (List.range n).map fun i => (dictGet assign i).getD ' '

def rowsOne : List Row := [⟨1, ["k1"]⟩]
def rowsTwo : List Row := [⟨1, ["k1", "k2"]⟩]
def rowsThree : List Row := [⟨1, ["k1", "k2", "k3"]⟩]

/-- A minimal catalog holding only the one-dead-key entry. -/
def odkCat : List DeadKey := [⟨ODK_ID, [], [], none, none⟩]

/-- Canvas with a micro sign on the base line and a blank shift line. -/
def tplMu : List (List Char) := [[], [' ', ' '], [' ', Char.ofNat 0xB5]]

/-- A fresh one-row template. -/
def tplFresh : List (List Char) := [[], [' ', ' '], [' ', ' ']]

/-- Canvas with `a` over `A`. -/
def tplAA : List (List Char) := [[], [' ', 'A'], [' ', 'a']]

def c2base : List Char :=
  mkLine 16 [(0, '*'), (1, '*'), (3, '-'), (7, 'a'), (9, Char.ofNat 0xE0),
             (13, 'a'), (15, Char.ofNat 0xE2)]
def c2shift : List Char := mkLine 16 [(7, 'A'), (13, 'A')]
def c2tpl : List (List Char) := [[], c2shift, c2base]
def c2cfg : Cfg := { base := some c2tpl }
def c2geom : List (String × List Row) := [("ISO", rowsThree)]

/-- The ODK dead key the `c2` layout compiles to. -/
def c2expected : DeadKey :=
  ⟨ODK_ID, ['a', 'a', 'A', 'A'],
   [Char.ofNat 0xE0, Char.ofNat 0xE2, Char.ofNat 0xC0, Char.ofNat 0xC2],
   some ['-'], some [Char.ofNat 39]⟩

/-- The model the `c2` layout compiles to (used to instantiate theorems about
compiled models at a concrete input). -/
def wModel : Model := (buildLayout c2geom odkCat c2cfg).getD ⟨emptyLayers, [], [], false, false⟩

def c4base : List Char := mkLine 10 [(0, '*'), (1, '*'), (3, '-'), (9, Char.ofNat 0xE0)]
def c4tpl : List (List Char) := [[], mkLine 10 [], c4base]
def c4cfg : Cfg := { base := some c4tpl }
def c4geom : List (String × List Row) := [("ISO", rowsTwo)]

def c5base : List Char :=
  mkLine 10 [(0, '*'), (1, '*'), (3, '-'), (7, 'a'), (9, Char.ofNat 0xE0)]
def c5shift : List Char := mkLine 10 [(1, '!'), (3, '?'), (7, 'A')]
def c5tpl : List (List Char) := [[], c5shift, c5base]
def c5cfg : Cfg :=
  { base := some c5tpl,
    spacebar := [("1dk", [Char.ofNat 39]), ("shift_1dk", [Char.ofNat 0xB4])] }
def c5geom : List (String × List Row) := [("ISO", rowsTwo)]

/-- Layers of the claim C5 instance: spacebar override `1dk = "'"`,
`shift_1dk = "´"`, one key with BASE/ODK pair `('a', 'à')`, the trigger on
`k1`. -/
def layersW : Layers := fun n =>
  if n = 0 then [("k1", ODK_ID), ("k2", ['a']), ("spce", blank)]
  else if n = 1 then [("k2", ['A']), ("spce", blank)]
  else if n = 2 then [("k1", ['-']), ("k2", [Char.ofNat 0xE0]), ("spce", [Char.ofNat 39])]
  else if n = 3 then [("k2", [Char.ofNat 0xC0]), ("spce", [Char.ofNat 0xB4])]
  else []

def deadKeysW : List (List Char × DeadKey) := [(ODK_ID, ⟨ODK_ID, [], [], none, none⟩)]

def geomThree : List (String × List Row) :=
  [("ANSI", rowsOne), ("ISO", rowsOne), ("ERGO", rowsOne)]

def cfgC3 : Cfg := { base := some tplAA }

/-! ### Dictionary lemmas -/

theorem dictGet_pySet_self {κ α : Type} [DecidableEq κ] (d : List (κ × α)) (k : κ) (v : α) :
    dictGet (pySet d k v) k = some v := by
  induction d with
  | nil => simp [pySet, dictGet]
  | cons p rest ih =>
    by_cases h : p.1 = k
    · simp [pySet, h, dictGet]
    · simp [pySet, h, dictGet, ih]

theorem dictGet_pySet_ne {κ α : Type} [DecidableEq κ] (d : List (κ × α)) (k k' : κ) (v : α)
    (h : k' ≠ k) : dictGet (pySet d k v) k' = dictGet d k' := by
  induction d with
  | nil => simp [pySet, dictGet, Ne.symm h]
  | cons p rest ih =>
    by_cases hp : p.1 = k
    · subst hp
      simp [pySet, dictGet, Ne.symm h]
    · simp [pySet, hp, dictGet, ih]

theorem dictGet_pySet_cases {κ α : Type} [DecidableEq κ] {d : List (κ × α)} {k k' : κ}
    {v v' : α} (h : dictGet (pySet d k v) k' = some v') :
    v' = v ∨ dictGet d k' = some v' := by
  by_cases hk : k' = k
  · subst hk; rw [dictGet_pySet_self] at h; exact Or.inl (Option.some.inj h).symm
  · rw [dictGet_pySet_ne _ _ _ _ hk] at h; exact Or.inr h

theorem mem_of_dictGet {κ α : Type} [DecidableEq κ] {d : List (κ × α)} {k : κ} {v : α}
    (h : dictGet d k = some v) : (k, v) ∈ d := by
  induction d with
  | nil => simp [dictGet] at h
  | cons p rest ih =>
    unfold dictGet at h
    split at h
    · rename_i hp
      cases h
      exact hp ▸ List.mem_cons_self _ _
    · exact List.mem_cons_of_mem _ (ih h)

theorem dictGet_map_val {κ α β : Type} [DecidableEq κ] (f : α → β) (d : List (κ × α))
    (k : κ) : dictGet (d.map fun p => (p.1, f p.2)) k = (dictGet d k).map f := by
  induction d with
  | nil => simp [dictGet]
  | cons p rest ih =>
    by_cases h : p.1 = k <;> simp [dictGet, h, ih]

theorem dictGet_setLayers_cases {ls : Layers} {L' : Nat} {key : String} {val : List Char}
    {L : Nat} {k : String} {v : List Char}
    (h : dictGet (setLayers ls L' key val L) k = some v) :
    dictGet (ls L) k = some v ∨ v = val := by
  unfold setLayers at h
  by_cases hL : L = L'
  · subst hL
    simp only [if_pos rfl] at h
    rcases dictGet_pySet_cases h with h1 | h1
    · exact Or.inr h1
    · exact Or.inl h1
  · simp only [if_neg hL] at h
    exact Or.inl h

/-! ### Character-level lemmas -/

theorem toNat_ofNat_valid (n : Nat) (h : n.isValidChar) : (Char.ofNat n).toNat = n := by
  unfold Char.ofNat
  rw [dif_pos h]
  rfl

theorem pyCharLower_eq_space {c : Char} (h : pyCharLower c = ' ') : c = ' ' := by
  unfold pyCharLower at h
  split_ifs at h with h1 h2 h3 h4 h5
  · exfalso
    have hv : (c.toNat + 32).isValidChar := Or.inl (by omega)
    have h32 := congrArg Char.toNat h
    rw [toNat_ofNat_valid _ hv] at h32
    have : (' ' : Char).toNat = 32 := rfl
    omega
  · exact absurd h (by decide)
  · exact absurd h (by decide)
  · exact absurd h (by decide)
  · exact absurd h (by decide)
  · exact h

theorem pyCharLower_star : pyCharLower '*' = '*' := by decide

theorem pyLower_eq_blank_iff {l : List Char} : pyLower l = blank ↔ l = blank := by
  constructor
  · intro h
    cases l with
    | nil => simp [pyLower, blank] at h
    | cons c t =>
      cases t with
      | nil =>
        have hc : pyCharLower c = ' ' := by simpa [pyLower, blank] using h
        simp [blank, pyCharLower_eq_space hc]
      | cons d t2 => simp [pyLower, blank] at h
  · rintro rfl
    decide

/-! ### Shape lemmas for cell values -/

theorem eq_single_of_length_one {l : List Char} (h : l.length = 1) : ∃ c, l = [c] := by
  cases l with
  | nil => simp at h
  | cons c t =>
    cases t with
    | nil => exact ⟨c, rfl⟩
    | cons d t2 => simp at h

theorem cellRead_shape (line : List Char) (i : Nat) :
    (∃ c, cellRead line i = [c]) ∨ ∃ c, cellRead line i = ['*', c] := by
  unfold cellRead
  split
  · exact Or.inr ⟨_, rfl⟩
  · exact Or.inl ⟨_, rfl⟩

theorem upper_key_not_single {l : List Char} (h : l.length ≠ 1) : upper_key l = blank := by
  simp [upper_key, h]

theorem upper_key_shape (l : List Char) :
    upper_key l = blank ∨ ∃ c, upper_key l = [c] := by
  unfold upper_key
  split
  · exact Or.inl rfl
  · rename_i hlen
    have h1 : l.length = 1 := not_not.mp hlen
    split
    · rename_i u heq
      have hm := mem_of_dictGet heq
      have hall : ∀ p ∈ customAlpha, p.2 = blank ∨ p.2.length = 1 := by decide
      rcases hall _ hm with h2 | h2
      · exact Or.inl h2
      · exact Or.inr (eq_single_of_length_one h2)
    · split
      · obtain ⟨c, rfl⟩ := eq_single_of_length_one h1
        exact Or.inr ⟨pyCharUpper c, rfl⟩
      · exact Or.inl rfl

theorem upper_key_blank : upper_key blank = blank := by decide

theorem effBase_goodCell {ln : Nat} {bl sl : List Char} {i : Nat}
    (h : effBase ln bl sl i ≠ blank) : GoodCell (effBase ln bl sl i) := by
  simp only [effBase] at h ⊢
  by_cases hc : ln = 0 ∧ cellRead bl i = blank
  · rw [if_pos hc] at h ⊢
    rcases cellRead_shape sl i with ⟨c, hcc⟩ | ⟨c, hcc⟩
    · rw [hcc] at h ⊢
      refine Or.inl ⟨pyCharLower c, ?_, rfl⟩
      intro hsp
      exact h (by simp [pyLower, blank, hsp])
    · rw [hcc] at h ⊢
      exact Or.inr ⟨pyCharLower c, by simp [pyLower, pyCharLower_star]⟩
  · rw [if_neg hc] at h ⊢
    rcases cellRead_shape bl i with ⟨c, hcc⟩ | ⟨c, hcc⟩
    · rw [hcc] at h ⊢
      refine Or.inl ⟨c, ?_, rfl⟩
      intro hsp
      exact h (by simp [blank, hsp])
    · rw [hcc]
      exact Or.inr ⟨c, rfl⟩

theorem effShift_goodCell {ln : Nat} {bl sl : List Char} {i : Nat}
    (h : effShift ln bl sl i ≠ blank) : GoodCell (effShift ln bl sl i) := by
  simp only [effShift] at h ⊢
  by_cases hc : ln ≠ 0 ∧ cellRead sl i = blank
  · rw [if_pos hc] at h ⊢
    rcases upper_key_shape (effBase ln bl sl i) with hu | ⟨c, hc1⟩
    · exact absurd hu h
    · rw [hc1] at h ⊢
      refine Or.inl ⟨c, ?_, rfl⟩
      intro hsp
      exact h (by simp [blank, hsp])
  · rw [if_neg hc] at h ⊢
    rcases cellRead_shape sl i with ⟨c, hc1⟩ | ⟨c, hc1⟩
    · rw [hc1] at h ⊢
      refine Or.inl ⟨c, ?_, rfl⟩
      intro hsp
      exact h (by simp [blank, hsp])
    · rw [hc1]
      exact Or.inr ⟨c, rfl⟩

/-! ### The parser only stores well-shaped, non-blank values -/

theorem parseKey_layers_cases {dks : List DeadKey} {ln : Nat} {bl sl : List Char}
    {i : Nat} {key : String} {st : PSt} {L : Nat} {k : String} {v : List Char}
    (h : dictGet ((parseKey dks ln bl sl i key st).layers L) k = some v) :
    dictGet (st.layers L) k = some v ∨
      (v = effBase ln bl sl i ∧ v ≠ blank) ∨ (v = effShift ln bl sl i ∧ v ≠ blank) := by
  unfold parseKey at h
  dsimp only at h
  by_cases hs : effShift ln bl sl i ≠ blank
  · rw [if_pos hs] at h
    dsimp only at h
    rcases dictGet_setLayers_cases h with h1 | h1
    · by_cases hb : effBase ln bl sl i ≠ blank
      · rw [if_pos hb] at h1
        dsimp only at h1
        rcases dictGet_setLayers_cases h1 with h2 | h2
        · exact Or.inl h2
        · exact Or.inr (Or.inl ⟨h2, h2 ▸ hb⟩)
      · rw [if_neg hb] at h1
        exact Or.inl h1
    · exact Or.inr (Or.inr ⟨h1, h1 ▸ hs⟩)
  · rw [if_neg hs] at h
    by_cases hb : effBase ln bl sl i ≠ blank
    · rw [if_pos hb] at h
      dsimp only at h
      rcases dictGet_setLayers_cases h with h2 | h2
      · exact Or.inl h2
      · exact Or.inr (Or.inl ⟨h2, h2 ▸ hb⟩)
    · rw [if_neg hb] at h
      exact Or.inl h

theorem parseKey_good {dks : List DeadKey} {ln : Nat} {bl sl : List Char} {i : Nat}
    {key : String} {st : PSt}
    (hst : ∀ L k v, dictGet (st.layers L) k = some v → GoodCell v) :
    ∀ L k v, dictGet ((parseKey dks ln bl sl i key st).layers L) k = some v →
      GoodCell v := by
  intro L k v h
  rcases parseKey_layers_cases h with h1 | ⟨h1, h2⟩ | ⟨h1, h2⟩
  · exact hst L k v h1
  · exact h1 ▸ effBase_goodCell (h1 ▸ h2)
  · exact h1 ▸ effShift_goodCell (h1 ▸ h2)

theorem parseKeys_good {dks : List DeadKey} {ln : Nat} {bl sl : List Char} :
    ∀ {i : Nat} {ks : List String} {st : PSt},
      (∀ L k v, dictGet (st.layers L) k = some v → GoodCell v) →
      ∀ L k v, dictGet ((parseKeys dks ln bl sl i ks st).layers L) k = some v →
        GoodCell v := by
  intro i ks
  induction ks generalizing i with
  | nil => intro st hst; exact hst
  | cons key rest ih =>
    intro st hst
    exact ih (parseKey_good hst)

theorem parseTemplate_good {dks : List DeadKey} {ln : Nat} :
    ∀ {tpl : List (List Char)} {rows : List Row} {st : PSt},
      (∀ L k v, dictGet (st.layers L) k = some v → GoodCell v) →
      ∀ L k v, dictGet ((parseTemplate dks ln tpl rows st).layers L) k = some v →
        GoodCell v := by
  intro tpl rows
  induction rows generalizing tpl with
  | nil => intro st hst; exact hst
  | cons r rs ih =>
    intro st hst
    exact ih (parseKeys_good hst)

/-- C10: after `_parse_template` runs on any template, every value it
inserted into a layer map is non-blank — a single character different from
the space character, or a two-character string whose first character is `'*'`
(`GoodCell`); no other value shapes occur. -/
theorem C10_parser_invariant (dks : List DeadKey) (ln : Nat) (tpl : List (List Char))
    (rows : List Row) :
    ∀ L k v, dictGet ((parseTemplate dks ln tpl rows emptyPSt).layers L) k = some v →
      GoodCell v :=
  parseTemplate_good (fun L k v h => by simp [emptyPSt, emptyLayers, dictGet] at h)

theorem C10_parser_invariant_witness : GoodCell [Char.ofNat 0xB5] :=
  C10_parser_invariant [] 0 tplMu rowsOne 0 "k1" [Char.ofNat 0xB5] (by decide)

/-- C6: `upper_key` is a pure function of its input; any input of length
other than 1 gives blank; the fixed override table gives the tabulated
counterpart (in particular `ß ↦ ẞ` and the micro sign gives blank); otherwise
it gives the generic uppercase when that differs from the generic lowercase
(`upper_key "a" = "A"`) and blank when no case distinction exists
(`upper_key "=" = " "`). -/
theorem C6_upper_key_spec :
    (∀ l : List Char, l.length ≠ 1 → upper_key l = blank) ∧
    (∀ p ∈ customAlpha, upper_key p.1 = p.2) ∧
    upper_key [Char.ofNat 0xDF] = [Char.ofNat 0x1E9E] ∧
    upper_key [Char.ofNat 0xB5] = blank ∧
    upper_key ['a'] = ['A'] ∧
    upper_key ['='] = blank ∧
    (∀ c : Char, dictGet customAlpha [c] = none → pyCharUpper c ≠ pyCharLower c →
      upper_key [c] = [pyCharUpper c]) ∧
    (∀ c : Char, dictGet customAlpha [c] = none → pyCharUpper c = pyCharLower c →
      upper_key [c] = blank) := by
  refine ⟨fun l h => upper_key_not_single h, by decide, by decide, by decide,
    by decide, by decide, ?_, ?_⟩
  · intro c hnone hne
    unfold upper_key
    rw [if_neg (by simp), hnone]
    simp [pyUpper, pyLower, hne]
  · intro c hnone heq
    unfold upper_key
    rw [if_neg (by simp), hnone]
    simp [pyUpper, pyLower, heq]

theorem C6_upper_key_spec_witness :
    upper_key [' ', ' '] = blank ∧
    upper_key [Char.ofNat 0x7C] = [Char.ofNat 0xA6] ∧
    upper_key ['b'] = ['B'] ∧
    upper_key ['-'] = blank :=
  ⟨C6_upper_key_spec.1 [' ', ' '] (by decide),
   C6_upper_key_spec.2.1 ([Char.ofNat 0x7C], [Char.ofNat 0xA6]) (by decide),
   (C6_upper_key_spec.2.2.2.2.2.2.1 'b' (by decide) (by decide)).trans (by decide),
   C6_upper_key_spec.2.2.2.2.2.2.2 '-' (by decide) (by decide)⟩

theorem dictGet_eq_none {κ α : Type} [DecidableEq κ] {d : List (κ × α)} {k : κ}
    (h : ∀ p ∈ d, p.1 ≠ k) : dictGet d k = none := by
  induction d with
  | nil => rfl
  | cons p rest ih =>
    simp [dictGet, h p (List.mem_cons_self p rest),
      ih fun q hq => h q (List.mem_cons_of_mem _ hq)]

/-- C3: with a geometry table whose shapes are `ANSI`, `ISO`, `ERGO` (spec
§6), compiling a descriptor declaring the unknown shape `"qwerty"` fails (the
spec's `ConfigurationError`, Python's `KeyError` at layout.py line 180), and
compiling a descriptor with no declared geometry uses `CONFIG`'s default
`"ISO"`. -/
theorem C3_shape_validity (geom : List (String × List Row)) (dks : List DeadKey)
    (cfg : Cfg)
    (hdom : ∀ p ∈ geom, p.1 = "ANSI" ∨ p.1 = "ISO" ∨ p.1 = "ERGO") :
    buildLayout geom dks { cfg with geometry := some "qwerty" } = none ∧
    (cfg.geometry = none →
      buildLayout geom dks cfg = buildLayout geom dks { cfg with geometry := some "ISO" }) := by
  obtain ⟨b, f, a, sp, g⟩ := cfg
  constructor
  · have hq : dictGet geom "qwerty" = none := by
      apply dictGet_eq_none
      intro p hp
      rcases hdom p hp with h | h | h <;> simp [h]
    simp [buildLayout, hq]
  · intro hgeo
    dsimp only at hgeo
    subst hgeo
    rfl

theorem C3_shape_validity_witness :
    buildLayout geomThree [] { cfgC3 with geometry := some "qwerty" } = none ∧
    buildLayout geomThree [] cfgC3 =
      buildLayout geomThree [] { cfgC3 with geometry := some "ISO" } :=
  ⟨(C3_shape_validity geomThree [] cfgC3 (by decide)).1,
   (C3_shape_validity geomThree [] cfgC3 (by decide)).2 rfl⟩

/-- C4 (code bug): on the `c4` descriptor, key `k2` carries an ODK-plane
glyph (`à`) with no BASE-plane glyph; the spec (§4.3, §7) says the pair is
silently skipped and compilation completes, but the 1dk copy loop
(layout.py line 248, `base_char = self.layers[i][name]`) looks the BASE glyph
up unguarded and raises `KeyError`, so the compilation aborts (`none`). -/
theorem C4_odk_missing_base_error :
    dictGet ((parseTemplate odkCat 2 c4tpl rowsTwo
      (parseTemplate odkCat 0 c4tpl rowsTwo emptyPSt)).layers 2) "k2" =
        some [Char.ofNat 0xE0] ∧
    dictGet ((parseTemplate odkCat 2 c4tpl rowsTwo
      (parseTemplate odkCat 0 c4tpl rowsTwo emptyPSt)).layers 0) "k2" = none ∧
    (buildLayout c4geom odkCat c4cfg).isNone = true := by
  refine ⟨by decide, by decide, by decide⟩

/-! ### Reading written canvas positions -/

theorem getD_set_eq {α : Type} (l : List α) {i : Nat} (h : i < l.length) (c d : α) :
    (l.set i c).getD i d = c := by
  simp [List.getD_eq_getElem?_getD, List.getElem?_set, h]

theorem getD_set_ne {α : Type} (l : List α) {i j : Nat} (h : i ≠ j) (c d : α) :
    (l.set i c).getD j d = l.getD j d := by
  simp [List.getD_eq_getElem?_getD, List.getElem?_set, h]

/-- The four components of `fillCells` as explicit conditional writes. -/
theorem fillCells_snd_zero (bk sk : List Char) (i : Nat) (b s : List Char) :
    (fillCells 0 bk sk i b s).2 =
      if deadCell sk then (s.set i (pyLast sk)).set (i - 1) '*'
      else s.set i (pyLast sk) := by
  unfold fillCells
  dsimp only
  by_cases hub : upper_key bk ≠ sk <;> simp [hub]

theorem fillCells_fst_zero (bk sk : List Char) (i : Nat) (b s : List Char) :
    (fillCells 0 bk sk i b s).1 =
      if upper_key bk ≠ sk then
        (if deadCell bk then (b.set i (pyLast bk)).set (i - 1) '*'
         else b.set i (pyLast bk))
      else b := by
  unfold fillCells
  dsimp only
  by_cases hub : upper_key bk ≠ sk <;> simp [hub]

theorem fillCells_fst_pos {ln : Nat} (hln : ln ≠ 0) (bk sk : List Char) (i : Nat)
    (b s : List Char) :
    (fillCells ln bk sk i b s).1 =
      if deadCell bk then (b.set i (pyLast bk)).set (i - 1) '*'
      else b.set i (pyLast bk) := by
  unfold fillCells
  rw [if_neg hln]
  dsimp only
  by_cases hub : upper_key bk ≠ sk <;> simp [hub]

theorem fillCells_snd_pos {ln : Nat} (hln : ln ≠ 0) (bk sk : List Char) (i : Nat)
    (b s : List Char) :
    (fillCells ln bk sk i b s).2 =
      if upper_key bk ≠ sk then
        (if deadCell sk then (s.set i (pyLast sk)).set (i - 1) '*'
         else s.set i (pyLast sk))
      else s := by
  unfold fillCells
  rw [if_neg hln]
  dsimp only
  by_cases hub : upper_key bk ≠ sk <;> simp [hub]

/-- Glyph column of a written cell. -/
theorem writeCell_getD_glyph {l : List Char} {i : Nat} (h : i < l.length) (hi : 1 ≤ i)
    (v : List Char) {dead : Prop} [Decidable dead] :
    ((if dead then (l.set i (pyLast v)).set (i - 1) '*' else l.set i (pyLast v)).getD i ' ')
      = pyLast v := by
  split
  · rw [getD_set_ne _ (by omega), getD_set_eq _ h]
  · rw [getD_set_eq _ h]

/-- Marker column of a written dead cell. -/
theorem writeCell_getD_marker {l : List Char} {i : Nat} (h : i < l.length)
    (v : List Char) {dead : Prop} [Decidable dead] (hd : dead) :
    ((if dead then (l.set i (pyLast v)).set (i - 1) '*' else l.set i (pyLast v)).getD (i - 1) ' ')
      = '*' := by
  rw [if_pos hd, getD_set_eq]
  simpa using Nat.lt_of_le_of_lt (Nat.sub_le i 1) h

/-- Marker column of a written non-dead cell. -/
theorem writeCell_getD_marker_not {l : List Char} {i : Nat} (hi : 1 ≤ i)
    (v : List Char) {dead : Prop} [Decidable dead] (hd : ¬ dead) :
    ((if dead then (l.set i (pyLast v)).set (i - 1) '*' else l.set i (pyLast v)).getD (i - 1) ' ')
      = l.getD (i - 1) ' ' := by
  rw [if_neg hd, getD_set_ne _ (by omega)]

/-- Other columns of a written cell are untouched. -/
theorem writeCell_getD_other {l : List Char} {i q : Nat} (hq1 : q ≠ i) (hq2 : q ≠ i - 1)
    (v : List Char) {dead : Prop} [Decidable dead] :
    ((if dead then (l.set i (pyLast v)).set (i - 1) '*' else l.set i (pyLast v)).getD q ' ')
      = l.getD q ' ' := by
  split
  · rw [getD_set_ne _ (Ne.symm hq2), getD_set_ne _ (Ne.symm hq1)]
  · rw [getD_set_ne _ (Ne.symm hq1)]

theorem writeCell_length {l : List Char} {i : Nat} (v : List Char) {dead : Prop}
    [Decidable dead] :
    ((if dead then (l.set i (pyLast v)).set (i - 1) '*' else l.set i (pyLast v)).length)
      = l.length := by
  split <;> simp

/-- C8: for every key, when filling the BASE/SHIFT pair the shifted cell is
always written and the base cell is written iff `upper_key` of the base value
differs from the shift value; for any other pair the base cell is always
written and the shifted cell is written iff `upper_key` of the base value
differs from the shift value; a written two-character dead-key value sets the
column immediately left of the glyph column to `'*'` (`fillCells` is the
per-key body applied by `_fill_template` to every row and key). -/
theorem C8_fill_compression (ln : Nat) (bk sk : List Char) (i : Nat) (b s : List Char)
    (hi : 1 ≤ i) (hb : i < b.length) (hs : i < s.length) :
    (ln = 0 →
      (fillCells ln bk sk i b s).2.getD i ' ' = pyLast sk ∧
      (deadCell sk → (fillCells ln bk sk i b s).2.getD (i - 1) ' ' = '*') ∧
      (upper_key bk ≠ sk →
        (fillCells ln bk sk i b s).1.getD i ' ' = pyLast bk ∧
        (deadCell bk → (fillCells ln bk sk i b s).1.getD (i - 1) ' ' = '*')) ∧
      (upper_key bk = sk → (fillCells ln bk sk i b s).1 = b)) ∧
    (ln ≠ 0 →
      (fillCells ln bk sk i b s).1.getD i ' ' = pyLast bk ∧
      (deadCell bk → (fillCells ln bk sk i b s).1.getD (i - 1) ' ' = '*') ∧
      (upper_key bk ≠ sk →
        (fillCells ln bk sk i b s).2.getD i ' ' = pyLast sk ∧
        (deadCell sk → (fillCells ln bk sk i b s).2.getD (i - 1) ' ' = '*')) ∧
      (upper_key bk = sk → (fillCells ln bk sk i b s).2 = s)) := by
  constructor
  · intro h0
    subst h0
    refine ⟨?_, ?_, ?_, ?_⟩
    · rw [fillCells_snd_zero, writeCell_getD_glyph hs hi]
    · intro hd
      rw [fillCells_snd_zero, writeCell_getD_marker hs _ hd]
    · intro hub
      constructor
      · rw [fillCells_fst_zero, if_pos hub, writeCell_getD_glyph hb hi]
      · intro hd
        rw [fillCells_fst_zero, if_pos hub, writeCell_getD_marker hb _ hd]
    · intro hub
      rw [fillCells_fst_zero, if_neg (by simpa using hub)]
  · intro hln
    refine ⟨?_, ?_, ?_, ?_⟩
    · rw [fillCells_fst_pos hln, writeCell_getD_glyph hb hi]
    · intro hd
      rw [fillCells_fst_pos hln, writeCell_getD_marker hb _ hd]
    · intro hub
      constructor
      · rw [fillCells_snd_pos hln, if_pos hub, writeCell_getD_glyph hs hi]
      · intro hd
        rw [fillCells_snd_pos hln, if_pos hub, writeCell_getD_marker hs _ hd]
    · intro hub
      rw [fillCells_snd_pos hln, if_neg (by simpa using hub)]

theorem C8_fill_compression_witness :
    (fillCells 0 ['a'] ['A'] 1 [' ', ' '] [' ', ' ']).2.getD 1 ' ' = pyLast ['A'] ∧
    (fillCells 2 ['*', 'x'] blank 1 [' ', ' '] [' ', ' ']).1.getD 0 ' ' = '*' :=
  ⟨((C8_fill_compression 0 ['a'] ['A'] 1 [' ', ' '] [' ', ' '] (by decide) (by decide)
      (by decide)).1 rfl).1,
   ((C8_fill_compression 2 ['*', 'x'] blank 1 [' ', ' '] [' ', ' '] (by decide) (by decide)
      (by decide)).2 (by decide)).2.1 (by decide)⟩

/-! ### Per-key lookup characterization of the parser -/

theorem setLayers_apply_eq (ls : Layers) (L : Nat) (key : String) (v : List Char) :
    setLayers ls L key v L = pySet (ls L) key v := by
  simp [setLayers]

theorem setLayers_apply_ne (ls : Layers) {L n : Nat} (h : n ≠ L) (key : String)
    (v : List Char) : setLayers ls L key v n = ls n := by
  simp [setLayers, h]

theorem dictGet_setLayers_ne_key {ls : Layers} {L' : Nat} {key : String} {v : List Char}
    {L : Nat} {k : String} (h : k ≠ key) :
    dictGet (setLayers ls L' key v L) k = dictGet (ls L) k := by
  unfold setLayers
  by_cases hL : L = L'
  · subst hL
    rw [if_pos rfl, dictGet_pySet_ne _ _ _ _ h]
  · rw [if_neg hL]

theorem parseKey_lookup_base (dks : List DeadKey) (ln : Nat) (bl sl : List Char)
    (i : Nat) (key : String) (st : PSt) :
    dictGet ((parseKey dks ln bl sl i key st).layers ln) key =
      if effBase ln bl sl i ≠ blank then some (effBase ln bl sl i)
      else dictGet (st.layers ln) key := by
  unfold parseKey
  dsimp only
  by_cases hb : effBase ln bl sl i ≠ blank
  · rw [if_pos hb, if_pos hb]
    by_cases hs : effShift ln bl sl i ≠ blank
    · rw [if_pos hs]
      dsimp only
      rw [setLayers_apply_ne _ (by omega), setLayers_apply_eq, dictGet_pySet_self]
    · rw [if_neg hs]
      dsimp only
      rw [setLayers_apply_eq, dictGet_pySet_self]
  · rw [if_neg hb, if_neg hb]
    by_cases hs : effShift ln bl sl i ≠ blank
    · rw [if_pos hs]
      dsimp only
      rw [setLayers_apply_ne _ (by omega)]
    · rw [if_neg hs]

theorem parseKey_lookup_shift (dks : List DeadKey) (ln : Nat) (bl sl : List Char)
    (i : Nat) (key : String) (st : PSt) :
    dictGet ((parseKey dks ln bl sl i key st).layers (ln + 1)) key =
      if effShift ln bl sl i ≠ blank then some (effShift ln bl sl i)
      else dictGet (st.layers (ln + 1)) key := by
  unfold parseKey
  dsimp only
  by_cases hs : effShift ln bl sl i ≠ blank
  · rw [if_pos hs, if_pos hs]
    dsimp only
    rw [setLayers_apply_eq, dictGet_pySet_self]
  · rw [if_neg hs, if_neg hs]
    by_cases hb : effBase ln bl sl i ≠ blank
    · rw [if_pos hb]
      dsimp only
      rw [setLayers_apply_ne _ (by omega)]
    · rw [if_neg hb]

theorem parseKey_lookup_ne (dks : List DeadKey) (ln : Nat) (bl sl : List Char) (i : Nat)
    (key : String) (st : PSt) {k : String} (h : k ≠ key) (L : Nat) :
    dictGet ((parseKey dks ln bl sl i key st).layers L) k = dictGet (st.layers L) k := by
  unfold parseKey
  dsimp only
  split <;> split <;> dsimp only <;>
    simp only [dictGet_setLayers_ne_key h]

theorem parseKey_layers_other (dks : List DeadKey) (ln : Nat) (bl sl : List Char)
    (i : Nat) (key : String) (st : PSt) {L : Nat} (h1 : L ≠ ln) (h2 : L ≠ ln + 1) :
    (parseKey dks ln bl sl i key st).layers L = st.layers L := by
  unfold parseKey
  dsimp only
  split <;> split <;> dsimp only <;> simp [setLayers, h1, h2]

/-- C7: per key, when parsing the BASE/SHIFT pair a blank base cell takes the
lowercase of the shift cell's value; on any other pair a blank shift cell
takes the uppercase-inference of the base value (so a blank inference leaves
the shift entry absent); and only non-blank base/shift values are inserted
into their layer maps (`parseKey` is the per-key body applied by
`_parse_template` to every row and key). -/
theorem C7_parse_expansion (dks : List DeadKey) (ln : Nat) (bl sl : List Char) (i : Nat)
    (key : String) (st : PSt) :
    (ln = 0 → cellRead bl i = blank → effBase ln bl sl i = pyLower (cellRead sl i)) ∧
    (ln ≠ 0 → cellRead sl i = blank →
      effShift ln bl sl i = upper_key (effBase ln bl sl i)) ∧
    dictGet ((parseKey dks ln bl sl i key st).layers ln) key =
      (if effBase ln bl sl i ≠ blank then some (effBase ln bl sl i)
       else dictGet (st.layers ln) key) ∧
    dictGet ((parseKey dks ln bl sl i key st).layers (ln + 1)) key =
      (if effShift ln bl sl i ≠ blank then some (effShift ln bl sl i)
       else dictGet (st.layers (ln + 1)) key) := by
  refine ⟨?_, ?_, parseKey_lookup_base dks ln bl sl i key st,
    parseKey_lookup_shift dks ln bl sl i key st⟩
  · intro h0 hcell
    simp [effBase, h0, hcell]
  · intro hln hcell
    simp [effShift, hln, hcell]

theorem C7_parse_expansion_witness :
    effBase 0 [' ', ' '] [' ', 'A'] 1 = ['a'] ∧
    dictGet ((parseKey [] 0 [' ', ' '] [' ', 'A'] 1 "k1" emptyPSt).layers 0) "k1"
      = some ['a'] := by
  have h := C7_parse_expansion [] 0 [' ', ' '] [' ', 'A'] 1 "k1" emptyPSt
  exact ⟨(h.1 rfl (by decide)).trans (by decide), (h.2.2.1).trans (by decide)⟩

/-! ### The catalog frame property (heap model) -/

theorem mem_pySet {κ α : Type} [DecidableEq κ] {d : List (κ × α)} {k : κ} {v : α}
    {r : κ × α} (h : r ∈ pySet d k v) : r ∈ d ∨ r = (k, v) := by
  induction d with
  | nil =>
    simp only [pySet, List.mem_singleton] at h
    exact Or.inr h
  | cons p rest ih =>
    unfold pySet at h
    split at h
    · rcases List.mem_cons.mp h with h | h
      · exact Or.inr h
      · exact Or.inl (List.mem_cons_of_mem _ h)
    · rcases List.mem_cons.mp h with h | h
      · exact Or.inl (h ▸ List.mem_cons_self _ _)
      · rcases ih h with h | h
        · exact Or.inl (List.mem_cons_of_mem _ h)
        · exact Or.inr h

theorem take_set_of_le {α : Type} :
    ∀ (l : List α) (a : Nat) (x : α) (n : Nat), n ≤ a → (l.set a x).take n = l.take n
  | [], _, _, _, _ => rfl
  | y :: l, 0, x, n, h => by
    have hn : n = 0 := Nat.le_zero.mp h
    subst hn
    rfl
  | y :: l, a + 1, x, 0, _ => rfl
  | y :: l, a + 1, x, n + 1, h => by
    simp only [List.set, List.take]
    rw [take_set_of_le l a x n (by omega)]

/-- Invariant of the heap state: the catalog is the untouched prefix and all
registered references point past it. -/
def HInv (n : Nat) (cat : List DeadKey) (st : HSt) : Prop :=
  st.heap.take n = cat ∧ n ≤ st.heap.length ∧ ∀ r ∈ st.dkrefs, n ≤ r.2

theorem HInv_alloc {n : Nat} {cat : List DeadKey} {st : HSt} (h : HInv n cat st)
    (dk : DeadKey) (k : List Char) :
    HInv n cat ⟨st.heap ++ [dk], pySet st.dkrefs k st.heap.length⟩ := by
  obtain ⟨h1, h2, h3⟩ := h
  refine ⟨?_, ?_, ?_⟩
  · rw [List.take_append_of_le_length h2]
    exact h1
  · simp only [List.length_append]
    omega
  · intro r hr
    rcases mem_pySet hr with h | h
    · exact h3 r h
    · rw [h]
      exact h2

theorem registerDKsH_inv {n : Nat} {cat : List DeadKey} (bk sk : List Char) {st : HSt}
    (h : HInv n cat st) : HInv n cat (registerDKsH n bk sk st) := by
  unfold registerDKsH
  generalize List.range n = l
  induction l generalizing st with
  | nil => exact h
  | cons a rest ih =>
    rw [List.foldl_cons]
    apply ih
    dsimp only
    by_cases h1 : bk = (st.heap.getD a defaultDK).char
    · rw [if_pos h1]
      by_cases h2 : sk = (st.heap.getD a defaultDK).char
      · rw [if_pos h2]
        exact HInv_alloc (HInv_alloc h _ _) _ _
      · rw [if_neg h2]
        exact HInv_alloc h _ _
    · rw [if_neg h1]
      by_cases h2 : sk = (st.heap.getD a defaultDK).char
      · rw [if_pos h2]
        exact HInv_alloc h _ _
      · rw [if_neg h2]
        exact h

theorem parseKeysH_inv {n : Nat} {cat : List DeadKey} {ln : Nat} {bl sl : List Char} :
    ∀ {i : Nat} {ks : List String} {st : HSt}, HInv n cat st →
      HInv n cat (parseKeysH n ln bl sl i ks st) := by
  intro i ks
  induction ks generalizing i with
  | nil => intro st h; exact h
  | cons key rest ih =>
    intro st h
    exact ih (registerDKsH_inv _ _ h)

theorem parseTemplateH_inv {n : Nat} {cat : List DeadKey} {ln : Nat} :
    ∀ {tpl : List (List Char)} {rows : List Row} {st : HSt}, HInv n cat st →
      HInv n cat (parseTemplateH n ln tpl rows st) := by
  intro tpl rows
  induction rows generalizing tpl with
  | nil => intro st h; exact h
  | cons r rs ih =>
    intro st h
    exact ih (parseKeysH_inv h)

theorem pruneRefs_take {layers : Layers} {n : Nat} :
    ∀ (refs : List (List Char × Nat)) (h : List DeadKey),
      (∀ r ∈ refs, n ≤ r.2) → (pruneRefs layers refs h).take n = h.take n := by
  intro refs
  induction refs with
  | nil => intro h _; rfl
  | cons r rest ih =>
    intro h hall
    unfold pruneRefs
    rw [ih _ fun q hq => hall q (List.mem_cons_of_mem _ hq)]
    exact take_set_of_le _ _ _ _ (hall r (List.mem_cons_self _ _))

theorem odkHeapStep_take {layers : Layers} {spc1dk : List Char} {n : Nat}
    (refs : List (List Char × Nat)) (h : List DeadKey)
    (hall : ∀ r ∈ refs, n ≤ r.2) :
    (odkHeapStep layers spc1dk refs h).take n = h.take n := by
  unfold odkHeapStep
  split
  · rfl
  · rename_i a heq
    split
    · rfl
    · exact take_set_of_le _ _ _ _ (hall _ (mem_of_dictGet heq))

/-- C9: compiling a layout never mutates the shared dead-key catalog.  In the
heap model, the catalog occupies the initial heap cells; registration
allocates fresh copies (`dk.copy()`), and the pruning pass and the 1dk pass
write only through the per-layout references, so after any sequence of
`_parse_template` calls followed by pruning and the 1dk pass the catalog
prefix — every entry's `char`, `base` and `alt` — is unchanged. -/
theorem C9_catalog_frame (dks : List DeadKey) (layers : Layers) (spc1dk : List Char)
    (parses : List (List (List Char) × List Row × Nat)) :
    (compileHeapDK dks layers spc1dk parses).take dks.length = dks := by
  unfold compileHeapDK
  have h0 : HInv dks.length dks ⟨dks, []⟩ := by
    refine ⟨by simp, by simp, by simp⟩
  have hfold : HInv dks.length dks
      (parses.foldl (fun st pr => parseTemplateH dks.length pr.2.2 pr.1 pr.2.1 st)
        ⟨dks, []⟩) := by
    generalize hst : (⟨dks, []⟩ : HSt) = st0
    rw [hst] at h0
    clear hst
    induction parses generalizing st0 with
    | nil => exact h0
    | cons pr rest ih =>
      rw [List.foldl_cons]
      exact ih _ (parseTemplateH_inv h0)
  obtain ⟨h1, _, h3⟩ := hfold
  rw [odkHeapStep_take _ _ h3, pruneRefs_take _ _ h3]
  exact h1

/-! ### The 1dk synthesis (C5, and shared with C2) -/

theorem odkCopyLayer_some {layers : Layers} {i : Nat} :
    ∀ {items : List (String × List Char)} {odk : DeadKey},
      (∀ p ∈ items, (dictGet (layers i) p.1).isSome) →
      odkCopyLayer layers i items odk = some (odkExtend odk (odkPairsOver layers i items)) := by
  intro items
  induction items with
  | nil =>
    intro odk _
    simp [odkCopyLayer, odkExtend, odkPairsOver]
  | cons q rest ih =>
    intro odk h
    obtain ⟨name, alt_char⟩ := q
    obtain ⟨b, hb⟩ := Option.isSome_iff_exists.mp (h _ (List.mem_cons_self _ _))
    have hb' : dictGet (layers i) name = some b := hb
    unfold odkCopyLayer
    rw [hb']
    dsimp only
    rw [ih fun p hp => h p (List.mem_cons_of_mem _ hp)]
    congr 1
    unfold odkPairsOver
    rw [List.filterMap_cons]
    dsimp only
    rw [hb']
    dsimp only
    by_cases hc : name ≠ "spce" ∧ b ≠ ODK_ID
    · rw [if_pos hc, if_pos hc]
      dsimp only
      unfold odkExtend
      simp
    · rw [if_neg hc, if_neg hc]

theorem odkCopyLayer_isSome {layers : Layers} {i : Nat} :
    ∀ {items : List (String × List Char)} {odk d : DeadKey},
      odkCopyLayer layers i items odk = some d →
      ∀ p ∈ items, (dictGet (layers i) p.1).isSome := by
  intro items
  induction items with
  | nil => intro _ _ _ p hp; cases hp
  | cons q rest ih =>
    intro odk d h p hp
    obtain ⟨name, alt_char⟩ := q
    unfold odkCopyLayer at h
    cases hq : dictGet (layers i) name with
    | none => rw [hq] at h; exact absurd h (by simp)
    | some b =>
      rw [hq] at h
      dsimp only at h
      rcases List.mem_cons.mp hp with hp | hp
      · rw [hp]
        simp [hq]
      · exact ih h p hp

theorem odkUpdate_some {layers : Layers} {spc1dk : List Char} {odk : DeadKey}
    (h0 : ∀ p ∈ layers 2, (dictGet (layers 0) p.1).isSome)
    (h1 : ∀ p ∈ layers 3, (dictGet (layers 1) p.1).isSome)
    (hself : ∀ kv, (layers 0).find? (fun q => decide (q.2 = ODK_ID)) = some kv →
      (dictGet (layers 2) kv.1).isSome) :
    ∃ d, odkUpdate layers spc1dk odk = some d ∧
      d.alt_space = some spc1dk ∧
      d.base = odk.base ++ ((odkPairsSpec layers 0).map Prod.fst).flatten
                        ++ ((odkPairsSpec layers 1).map Prod.fst).flatten ∧
      d.alt = odk.alt ++ ((odkPairsSpec layers 0).map Prod.snd).flatten
                      ++ ((odkPairsSpec layers 1).map Prod.snd).flatten ∧
      (∀ kv, (layers 0).find? (fun q => decide (q.2 = ODK_ID)) = some kv →
        d.alt_self = dictGet (layers 2) kv.1) ∧
      ((layers 0).find? (fun q => decide (q.2 = ODK_ID)) = none →
        d.alt_self = odk.alt_self) := by
  unfold odkUpdate
  dsimp only
  cases hf : (layers 0).find? (fun q => decide (q.2 = ODK_ID)) with
  | none =>
    dsimp only
    rw [Option.some_bind, odkCopyLayer_some h0, Option.some_bind, odkCopyLayer_some h1]
    refine ⟨_, rfl, rfl, ?_, ?_, ?_, ?_⟩
    · simp [odkExtend, odkPairsSpec]
    · simp [odkExtend, odkPairsSpec]
    · intro kv hkv
      exact Option.noConfusion hkv
    · intro _
      rfl
  | some kv =>
    obtain ⟨v, hv⟩ := Option.isSome_iff_exists.mp (hself kv hf)
    dsimp only
    rw [hv]
    dsimp only
    rw [Option.some_bind, odkCopyLayer_some h0, Option.some_bind, odkCopyLayer_some h1]
    refine ⟨_, rfl, rfl, ?_, ?_, ?_, ?_⟩
    · simp [odkExtend, odkPairsSpec]
    · simp [odkExtend, odkPairsSpec]
    · intro kv2 hkv2
      cases hkv2
      show some v = dictGet (layers 2) kv.1
      exact hv.symm
    · intro hkv2
      exact Option.noConfusion hkv2

/-- C5 (amended): when a dead key with the reserved ODK trigger is active and
every ODK-plane (resp. ODK_SHIFT-plane) entry has a matching BASE (resp.
SHIFT) entry, the synthesized ODK dead key's `base`/`alt` arrays are the
catalog copy's arrays extended, across BASE and SHIFT, with every (base-pair
glyph, ODK-pair glyph) pair on keys other than the spacebar — skipping, in
each pass, the pairs whose glyph in that pass's base layer is the trigger
itself (`odkPairsSpec`); `alt_space` is the spacebar's 1dk value and
`alt_self` is the ODK-layer value of the first key bearing the trigger on
BASE. -/
theorem C5_odk_synthesis_amended (layers : Layers) (spc1dk : List Char)
    (dead_keys : List (List Char × DeadKey)) (odk0 : DeadKey)
    (hodk : dictGet dead_keys ODK_ID = some odk0)
    (h0 : ∀ p ∈ layers 2, (dictGet (layers 0) p.1).isSome)
    (h1 : ∀ p ∈ layers 3, (dictGet (layers 1) p.1).isSome)
    (hself : ∀ kv, (layers 0).find? (fun q => decide (q.2 = ODK_ID)) = some kv →
      (dictGet (layers 2) kv.1).isSome) :
    ∃ d, odkPass layers spc1dk dead_keys = some (pySet dead_keys ODK_ID d, true) ∧
      d.alt_space = some spc1dk ∧
      d.base = odk0.base ++ ((odkPairsSpec layers 0).map Prod.fst).flatten
                         ++ ((odkPairsSpec layers 1).map Prod.fst).flatten ∧
      d.alt = odk0.alt ++ ((odkPairsSpec layers 0).map Prod.snd).flatten
                       ++ ((odkPairsSpec layers 1).map Prod.snd).flatten ∧
      (∀ kv, (layers 0).find? (fun q => decide (q.2 = ODK_ID)) = some kv →
        d.alt_self = dictGet (layers 2) kv.1) ∧
      ((layers 0).find? (fun q => decide (q.2 = ODK_ID)) = none →
        d.alt_self = odk0.alt_self) := by
  obtain ⟨d, hd, hrest⟩ := @odkUpdate_some _ spc1dk odk0 h0 h1 hself
  refine ⟨d, ?_, hrest⟩
  unfold odkPass
  rw [hodk]
  dsimp only
  rw [hd]
  rfl

theorem C5_odk_synthesis_amended_witness :
    ∃ d, odkPass layersW [Char.ofNat 39] deadKeysW =
        some (pySet deadKeysW ODK_ID d, true) ∧
      d.alt_space = some [Char.ofNat 39] ∧
      d.base = [] ++ ((odkPairsSpec layersW 0).map Prod.fst).flatten
                  ++ ((odkPairsSpec layersW 1).map Prod.fst).flatten ∧
      d.alt = [] ++ ((odkPairsSpec layersW 0).map Prod.snd).flatten
                 ++ ((odkPairsSpec layersW 1).map Prod.snd).flatten ∧
      (∀ kv, (layersW 0).find? (fun q => decide (q.2 = ODK_ID)) = some kv →
        d.alt_self = dictGet (layersW 2) kv.1) ∧
      ((layersW 0).find? (fun q => decide (q.2 = ODK_ID)) = none →
        d.alt_self = none) :=
  C5_odk_synthesis_amended layersW [Char.ofNat 39] deadKeysW ⟨ODK_ID, [], [], none, none⟩
    (by decide) (by decide) (by decide)
    (by
      intro kv hkv
      rw [show (layersW 0).find? (fun q => decide (q.2 = ODK_ID)) = some ("k1", ODK_ID)
        from by decide] at hkv
      cases hkv
      decide)

/-- C5 (counterexample to the claim as stated): on the `c5` layout the
trigger key `k1` carries `'!'` on SHIFT and `'?'` on ODK_SHIFT; the claim
says pairs on keys whose BASE value is the ODK trigger are skipped
(`odkPairsClaim`), but the code's SHIFT pass only skips pairs whose SHIFT
value is the trigger, so the synthesized base array is `"a!A"` — not the
claim's `"" ++ "a" ++ "A"`. -/
theorem C5_odk_synthesis_counterexample :
    ((buildLayout c5geom odkCat c5cfg).bind fun m =>
      (dictGet m.dead_keys ODK_ID).map fun d =>
        (d.base,
         [] ++ ((odkPairsClaim m.layers 0).map Prod.fst).flatten
            ++ ((odkPairsClaim m.layers 1).map Prod.fst).flatten))
      = some (['a', '!', 'A'], ['a', 'A']) ∧
    (['a', '!', 'A'] : List Char) ≠ ['a', 'A'] :=
  ⟨by decide, by decide⟩

/-! ### Pruning lemmas -/

theorem pruneZip_eq (layers : Layers) :
    ∀ pairs : List (Char × Char),
      pruneZip layers pairs =
        ((pairs.filter fun p =>
            layer_has_char layers p.1 0 || layer_has_char layers p.1 1).map Prod.fst,
         (pairs.filter fun p =>
            layer_has_char layers p.1 0 || layer_has_char layers p.1 1).map Prod.snd) := by
  intro pairs
  induction pairs with
  | nil => rfl
  | cons p rest ih =>
    unfold pruneZip
    rw [ih]
    dsimp only
    by_cases hc : (layer_has_char layers p.1 0 || layer_has_char layers p.1 1) = true
    · rw [if_pos hc, List.filter_cons]
      simp [hc]
    · rw [if_neg hc, List.filter_cons]
      simp [hc]

theorem pruneDK_base (layers : Layers) (dk : DeadKey) :
    (pruneDK layers dk).base =
      ((dk.base.zip dk.alt).filter fun p =>
        layer_has_char layers p.1 0 || layer_has_char layers p.1 1).map Prod.fst := by
  unfold pruneDK
  rw [pruneZip_eq]

theorem pruneDK_alt (layers : Layers) (dk : DeadKey) :
    (pruneDK layers dk).alt =
      ((dk.base.zip dk.alt).filter fun p =>
        layer_has_char layers p.1 0 || layer_has_char layers p.1 1).map Prod.snd := by
  unfold pruneDK
  rw [pruneZip_eq]

theorem pruneDK_base_sound {layers : Layers} {dk : DeadKey} :
    ∀ c ∈ (pruneDK layers dk).base,
      layer_has_char layers c 0 = true ∨ layer_has_char layers c 1 = true := by
  intro c hc
  rw [pruneDK_base] at hc
  obtain ⟨p, hp, hpc⟩ := List.mem_map.mp hc
  have := List.of_mem_filter hp
  subst hpc
  exact Bool.or_eq_true_iff.mp this

theorem pruneDK_zip_sublist (layers : Layers) (dk : DeadKey) :
    ((pruneDK layers dk).base.zip (pruneDK layers dk).alt).Sublist
      (dk.base.zip dk.alt) := by
  rw [pruneDK_base, pruneDK_alt, List.zip_map',
    show (fun a : Char × Char => (a.1, a.2)) = id by funext a; simp, List.map_id]
  exact List.filter_sublist _

theorem pruneDK_pairConsistent {layers : Layers} {dk : DeadKey}
    (h : pairConsistent dk) : pairConsistent (pruneDK layers dk) :=
  List.Pairwise.sublist (pruneDK_zip_sublist layers dk) h

theorem layer_has_char_of_value {layers : Layers} {i : Nat} {name : String} {c : Char}
    (h : dictGet (layers i) name = some [c]) : layer_has_char layers c i = true := by
  unfold layer_has_char
  rw [List.any_eq_true]
  exact ⟨(name, [c]), mem_of_dictGet h, by simp⟩

theorem odkPairsOver_mem {layers : Layers} {i : Nat} {items : List (String × List Char)}
    {p : List Char × List Char} (hp : p ∈ odkPairsOver layers i items) :
    ∃ name, name ≠ "spce" ∧ dictGet (layers i) name = some p.1 ∧ p.1 ≠ ODK_ID := by
  unfold odkPairsOver at hp
  obtain ⟨q, hq, hfq⟩ := List.mem_filterMap.mp hp
  cases hd : dictGet (layers i) q.1 with
  | none => rw [hd] at hfq; cases hfq
  | some b =>
    rw [hd] at hfq
    dsimp only at hfq
    by_cases hc : q.1 ≠ "spce" ∧ b ≠ ODK_ID
    · rw [if_pos hc] at hfq
      cases hfq
      exact ⟨q.1, hc.1, hd, hc.2⟩
    · rw [if_neg hc] at hfq
      cases hfq

/-! ### Registered dead keys are catalog copies keyed by their trigger -/

theorem registerDKs_inv {dks : List DeadKey} {bk sk : List Char}
    {d : List (List Char × DeadKey)}
    (h : ∀ q ∈ d, q.2 ∈ dks ∧ q.1 = q.2.char) :
    ∀ q ∈ registerDKs dks bk sk d, q.2 ∈ dks ∧ q.1 = q.2.char := by
  unfold registerDKs
  have main : ∀ (l : List DeadKey), (∀ dk ∈ l, dk ∈ dks) →
      ∀ (d0 : List (List Char × DeadKey)), (∀ q ∈ d0, q.2 ∈ dks ∧ q.1 = q.2.char) →
      ∀ q ∈ l.foldl (fun d dk =>
          let d := if bk = dk.char then pySet d bk dk else d
          if sk = dk.char then pySet d sk dk else d) d0,
        q.2 ∈ dks ∧ q.1 = q.2.char := by
    intro l
    induction l with
    | nil => intro _ d0 h0; exact h0
    | cons dk rest ih =>
      intro hl d0 h0
      rw [List.foldl_cons]
      apply ih fun x hx => hl x (List.mem_cons_of_mem _ hx)
      dsimp only
      intro q hq
      have hdk : dk ∈ dks := hl dk (List.mem_cons_self _ _)
      by_cases h2 : sk = dk.char
      · rw [if_pos h2] at hq
        rcases mem_pySet hq with hq | hq
        · by_cases h1 : bk = dk.char
          · rw [if_pos h1] at hq
            rcases mem_pySet hq with hq | hq
            · exact h0 q hq
            · rw [hq]; exact ⟨hdk, h1⟩
          · rw [if_neg h1] at hq
            exact h0 q hq
        · rw [hq]; exact ⟨hdk, h2⟩
      · rw [if_neg h2] at hq
        by_cases h1 : bk = dk.char
        · rw [if_pos h1] at hq
          rcases mem_pySet hq with hq | hq
          · exact h0 q hq
          · rw [hq]; exact ⟨hdk, h1⟩
        · rw [if_neg h1] at hq
          exact h0 q hq
  exact main dks (fun _ hx => hx) d h

theorem parseKey_dead_keys (dks : List DeadKey) (ln : Nat) (bl sl : List Char) (i : Nat)
    (key : String) (st : PSt) :
    (parseKey dks ln bl sl i key st).dead_keys =
      registerDKs dks (effBase ln bl sl i) (effShift ln bl sl i) st.dead_keys := by
  unfold parseKey
  dsimp only
  split <;> split <;> rfl

theorem parseKeys_dkInv {dks : List DeadKey} {ln : Nat} {bl sl : List Char} :
    ∀ {i : Nat} {ks : List String} {st : PSt},
      (∀ q ∈ st.dead_keys, q.2 ∈ dks ∧ q.1 = q.2.char) →
      ∀ q ∈ (parseKeys dks ln bl sl i ks st).dead_keys, q.2 ∈ dks ∧ q.1 = q.2.char := by
  intro i ks
  induction ks generalizing i with
  | nil => intro st h; exact h
  | cons key rest ih =>
    intro st h
    apply ih
    rw [parseKey_dead_keys]
    exact registerDKs_inv h

theorem parseTemplate_dkInv {dks : List DeadKey} {ln : Nat} :
    ∀ {tpl : List (List Char)} {rows : List Row} {st : PSt},
      (∀ q ∈ st.dead_keys, q.2 ∈ dks ∧ q.1 = q.2.char) →
      ∀ q ∈ (parseTemplate dks ln tpl rows st).dead_keys, q.2 ∈ dks ∧ q.1 = q.2.char := by
  intro tpl rows
  induction rows generalizing tpl with
  | nil => intro st h; exact h
  | cons r rs ih =>
    intro st h
    exact ih (parseKeys_dkInv h)

theorem parseStage_dkInv {dks : List DeadKey} {rows : List Row} {cfg : Cfg} {st : PSt}
    {ha : Bool} (h : parseStage dks rows cfg = some (st, ha)) :
    ∀ q ∈ st.dead_keys, q.2 ∈ dks ∧ q.1 = q.2.char := by
  have hempty : ∀ q ∈ emptyPSt.dead_keys, q.2 ∈ dks ∧ q.1 = q.2.char := by
    intro q hq
    cases hq
  unfold parseStage at h
  cases hfull : cfg.full with
  | some full =>
    rw [hfull] at h
    dsimp only at h
    cases Option.some.inj h
    exact parseTemplate_dkInv (parseTemplate_dkInv hempty)
  | none =>
    rw [hfull] at h
    cases hbase : cfg.base with
    | none => rw [hbase] at h; cases h
    | some b =>
      rw [hbase] at h
      dsimp only at h
      cases haltgr : cfg.altgr with
      | some a =>
        rw [haltgr] at h
        cases Option.some.inj h
        exact parseTemplate_dkInv (parseTemplate_dkInv (parseTemplate_dkInv hempty))
      | none =>
        rw [haltgr] at h
        cases Option.some.inj h
        exact parseTemplate_dkInv (parseTemplate_dkInv hempty)

/-! ### Structure of a successful compilation -/

theorem buildLayout_inv {geom : List (String × List Row)} {dks : List DeadKey}
    {cfg : Cfg} {model : Model} (h : buildLayout geom dks cfg = some model) :
    ∃ rows st ha,
      dictGet geom (cfg.geometry.getD "ISO") = some rows ∧
      parseStage dks rows cfg = some (st, ha) ∧
      model.layers = spacebarStage st.layers
        (cfg.spacebar.foldl (fun d p => pySet d p.1 p.2) SPACEBAR) ha ∧
      model.has_altgr = ha ∧
      odkPass model.layers
        ((dictGet (cfg.spacebar.foldl (fun d p => pySet d p.1 p.2) SPACEBAR) "1dk").getD blank)
        (st.dead_keys.map fun p => (p.1, pruneDK model.layers p.2))
        = some (model.dead_keys, model.has_1dk) := by
  unfold buildLayout at h
  cases hrows : dictGet geom (cfg.geometry.getD "ISO") with
  | none => rw [hrows] at h; cases h
  | some rows =>
    rw [hrows] at h
    dsimp only at h
    cases hp : parseStage dks rows cfg with
    | none => rw [hp] at h; cases h
    | some p =>
      obtain ⟨st, ha⟩ := p
      rw [hp] at h
      dsimp only at h
      cases hq : odkPass
          (spacebarStage st.layers (cfg.spacebar.foldl (fun d p => pySet d p.1 p.2) SPACEBAR) ha)
          ((dictGet (cfg.spacebar.foldl (fun d p => pySet d p.1 p.2) SPACEBAR) "1dk").getD blank)
          (st.dead_keys.map fun p =>
            (p.1, pruneDK (spacebarStage st.layers
              (cfg.spacebar.foldl (fun d p => pySet d p.1 p.2) SPACEBAR) ha) p.2)) with
      | none => rw [hq] at h; cases h
      | some q =>
        obtain ⟨dkeys, h1dk⟩ := q
        rw [hq] at h
        dsimp only at h
        have hm := Option.some.inj h
        subst hm
        exact ⟨rows, st, ha, rfl, hp, rfl, rfl, hq⟩

theorem odkUpdate_isSome_inv {layers : Layers} {spc1dk : List Char} {odk d : DeadKey}
    (h : odkUpdate layers spc1dk odk = some d) :
    (∀ p ∈ layers 2, (dictGet (layers 0) p.1).isSome) ∧
    (∀ p ∈ layers 3, (dictGet (layers 1) p.1).isSome) ∧
    (∀ kv, (layers 0).find? (fun q => decide (q.2 = ODK_ID)) = some kv →
      (dictGet (layers 2) kv.1).isSome) := by
  unfold odkUpdate at h
  dsimp only at h
  rw [Option.bind_eq_some] at h
  obtain ⟨odk1, h1, h⟩ := h
  rw [Option.bind_eq_some] at h
  obtain ⟨odk2, h2, h3⟩ := h
  refine ⟨odkCopyLayer_isSome h2, odkCopyLayer_isSome h3, ?_⟩
  intro kv hkv
  rw [hkv] at h1
  dsimp only at h1
  cases hv : dictGet (layers 2) kv.1 with
  | none =>
    rw [hv] at h1
    exact absurd h1 (by simp)
  | some v => simp

theorem pruned_entry_props {dks : List DeadKey} {layers : Layers}
    {st : List (List Char × DeadKey)} {trig : List Char} {d : DeadKey}
    (hinv : ∀ q ∈ st, q.2 ∈ dks ∧ q.1 = q.2.char)
    (hpair : ∀ dk ∈ dks, pairConsistent dk)
    (hd : dictGet (st.map fun p => (p.1, pruneDK layers p.2)) trig = some d) :
    (∀ c ∈ d.base, layer_has_char layers c 0 = true ∨ layer_has_char layers c 1 = true) ∧
    (∃ dk0 ∈ dks, trig = dk0.char ∧ (d.base.zip d.alt).Sublist (dk0.base.zip dk0.alt)) ∧
    pairConsistent d := by
  rw [dictGet_map_val] at hd
  obtain ⟨d0, hd0, hpd⟩ := Option.map_eq_some'.mp hd
  have hcat := hinv (trig, d0) (mem_of_dictGet hd0)
  subst hpd
  exact ⟨pruneDK_base_sound, ⟨d0, hcat.1, hcat.2, pruneDK_zip_sublist layers d0⟩,
    pruneDK_pairConsistent (hpair d0 hcat.1)⟩

/-- C2 (amended): in a compiled model whose catalog entries pair no base
character with two different alt characters, every dead key that is not the
synthesized ODK dead key is the pruned copy of its catalog entry: every
character of its `base` occurs as a value in the BASE or SHIFT layer, the
kept `(base, alt)` pairs are a sublist (pairing and relative order preserved)
of the catalog entry's pairs, and no base character is paired with two
different alts.  The synthesized ODK dead key is its pruned catalog copy —
with those same properties — extended with the appended cell pairs
(`odkPairsSpec`); each appended pair's base string is a BASE or SHIFT value
of some non-spacebar key, and when that value is a single character it occurs
in that layer (appended pairs may duplicate a base character with a different
alt, and a two-character appended cell contributes its characters without the
per-character occurrence guarantee). -/
theorem C2_pruning_amended (geom : List (String × List Row)) (dks : List DeadKey)
    (cfg : Cfg) (model : Model)
    (hb : buildLayout geom dks cfg = some model)
    (hpair : ∀ dk ∈ dks, pairConsistent dk) :
    ∀ trig d, dictGet model.dead_keys trig = some d →
      (¬ (model.has_1dk = true ∧ trig = ODK_ID) →
        (∀ c ∈ d.base, layer_has_char model.layers c 0 = true ∨
          layer_has_char model.layers c 1 = true) ∧
        (∃ dk0 ∈ dks, trig = dk0.char ∧
          (d.base.zip d.alt).Sublist (dk0.base.zip dk0.alt)) ∧
        pairConsistent d) ∧
      (model.has_1dk = true → trig = ODK_ID →
        ∃ dk0 ∈ dks,
          (∀ c ∈ (pruneDK model.layers dk0).base,
            layer_has_char model.layers c 0 = true ∨
            layer_has_char model.layers c 1 = true) ∧
          ((pruneDK model.layers dk0).base.zip (pruneDK model.layers dk0).alt).Sublist
            (dk0.base.zip dk0.alt) ∧
          pairConsistent (pruneDK model.layers dk0) ∧
          d.base = (pruneDK model.layers dk0).base
            ++ ((odkPairsSpec model.layers 0).map Prod.fst).flatten
            ++ ((odkPairsSpec model.layers 1).map Prod.fst).flatten ∧
          d.alt = (pruneDK model.layers dk0).alt
            ++ ((odkPairsSpec model.layers 0).map Prod.snd).flatten
            ++ ((odkPairsSpec model.layers 1).map Prod.snd).flatten ∧
          (∀ i, i = 0 ∨ i = 1 → ∀ p ∈ odkPairsSpec model.layers i,
            (∃ name, name ≠ "spce" ∧ dictGet (model.layers i) name = some p.1) ∧
            ∀ c, p.1 = [c] → layer_has_char model.layers c i = true)) := by
  intro trig d hd
  obtain ⟨rows, st, ha, hrows, hstage, hlay, hha, hodk⟩ := buildLayout_inv hb
  have hinv := parseStage_dkInv hstage
  unfold odkPass at hodk
  cases hfind : dictGet (st.dead_keys.map fun p => (p.1, pruneDK model.layers p.2))
      ODK_ID with
  | none =>
    rw [hfind] at hodk
    have hmm := Option.some.inj hodk
    obtain ⟨hdk_eq, h1dk_eq⟩ := Prod.mk.inj hmm
    constructor
    · intro _
      rw [← hdk_eq] at hd
      exact pruned_entry_props hinv hpair hd
    · intro hm1 _
      exact absurd (h1dk_eq.trans hm1) (by decide)
  | some odk0p =>
    rw [hfind] at hodk
    dsimp only at hodk
    rw [Option.map_eq_some'] at hodk
    obtain ⟨dd, hdd, heq⟩ := hodk
    obtain ⟨hdkeys, h1dk_eq⟩ := Prod.mk.inj heq
    constructor
    · intro hnot
      have htr : trig ≠ ODK_ID := fun hh => hnot ⟨h1dk_eq.symm, hh⟩
      rw [← hdkeys, dictGet_pySet_ne _ _ _ _ htr] at hd
      exact pruned_entry_props hinv hpair hd
    · intro _ htrig
      subst htrig
      rw [← hdkeys, dictGet_pySet_self] at hd
      have hdd_eq : dd = d := Option.some.inj hd
      subst hdd_eq
      rw [dictGet_map_val] at hfind
      obtain ⟨d0, hd0, hpd⟩ := Option.map_eq_some'.mp hfind
      have hcat := hinv (ODK_ID, d0) (mem_of_dictGet hd0)
      obtain ⟨hc0, hc1, hcself⟩ := odkUpdate_isSome_inv hdd
      obtain ⟨d2, hd2, hspace, hbase2, halt2, hs1, hs2⟩ :=
        @odkUpdate_some _ _ odk0p hc0 hc1 hcself
      have hdd2 : dd = d2 := Option.some.inj (hdd.symm.trans hd2)
      subst hdd2
      refine ⟨d0, hcat.1, pruneDK_base_sound, pruneDK_zip_sublist _ _,
        pruneDK_pairConsistent (hpair d0 hcat.1), ?_, ?_, ?_⟩
      · rw [hbase2, hpd]
      · rw [halt2, hpd]
      · intro i _ p hp
        have hp2 : p ∈ odkPairsOver model.layers i (model.layers (i + 2)) := hp
        obtain ⟨name, hn1, hn2, _⟩ := odkPairsOver_mem hp2
        refine ⟨⟨name, hn1, hn2⟩, ?_⟩
        intro c hc
        rw [hc] at hn2
        exact layer_has_char_of_value hn2

/-- C2 (counterexample to the claim as stated): the `c2` layout maps `'a'` on
two keys (`k2`, `k3`) with ODK glyphs `'à'` and `'â'`; the synthesized ODK
dead key's arrays are `base = "aaAA"`, `alt = "àâÀÂ"` — the base character
`'a'` (and `'A'`) appears twice with a different alt pairing, so the claim's
no-duplicate conjunct fails on the entries appended to the synthesized ODK
dead key. -/
theorem C2_pruning_counterexample :
    ((buildLayout c2geom odkCat c2cfg).bind fun m => dictGet m.dead_keys ODK_ID)
      = some c2expected ∧ ¬ pairConsistent c2expected :=
  ⟨by decide, by decide⟩

theorem C2_pruning_amended_witness :
    ∃ dk0 ∈ odkCat,
      (∀ c ∈ (pruneDK wModel.layers dk0).base,
        layer_has_char wModel.layers c 0 = true ∨
        layer_has_char wModel.layers c 1 = true) ∧
      ((pruneDK wModel.layers dk0).base.zip (pruneDK wModel.layers dk0).alt).Sublist
        (dk0.base.zip dk0.alt) ∧
      pairConsistent (pruneDK wModel.layers dk0) ∧
      c2expected.base = (pruneDK wModel.layers dk0).base
        ++ ((odkPairsSpec wModel.layers 0).map Prod.fst).flatten
        ++ ((odkPairsSpec wModel.layers 1).map Prod.fst).flatten ∧
      c2expected.alt = (pruneDK wModel.layers dk0).alt
        ++ ((odkPairsSpec wModel.layers 0).map Prod.snd).flatten
        ++ ((odkPairsSpec wModel.layers 1).map Prod.snd).flatten ∧
      (∀ i, i = 0 ∨ i = 1 → ∀ p ∈ odkPairsSpec wModel.layers i,
        (∃ name, name ≠ "spce" ∧ dictGet (wModel.layers i) name = some p.1) ∧
        ∀ c, p.1 = [c] → layer_has_char wModel.layers c i = true) :=
  (C2_pruning_amended c2geom odkCat c2cfg wModel rfl (by decide) ODK_ID c2expected
    (by decide)).2 (by decide) rfl

/-! ### Cell-level lemmas for the round-trip theorem -/

theorem effBase_zero_eq (bl sl : List Char) (i : Nat) :
    effBase 0 bl sl i =
      if cellRead bl i = blank then pyLower (cellRead sl i) else cellRead bl i := by
  simp [effBase]

theorem effBase_pos_eq {ln : Nat} (h : ln ≠ 0) (bl sl : List Char) (i : Nat) :
    effBase ln bl sl i = cellRead bl i := by
  simp [effBase, h]

theorem effShift_zero_eq (bl sl : List Char) (i : Nat) :
    effShift 0 bl sl i = cellRead sl i := by
  simp [effShift]

theorem effShift_pos_eq {ln : Nat} (h : ln ≠ 0) (bl sl : List Char) (i : Nat) :
    effShift ln bl sl i =
      if cellRead sl i = blank then upper_key (effBase ln bl sl i)
      else cellRead sl i := by
  simp [effShift, h]

theorem cellRead_congr {l l2 : List Char} {i : Nat}
    (h1 : l.getD i ' ' = l2.getD i ' ') (h2 : l.getD (i - 1) ' ' = l2.getD (i - 1) ' ') :
    cellRead l i = cellRead l2 i := by
  unfold cellRead
  rw [h1, h2]

theorem effBase_congr {ln : Nat} {bl bl2 sl sl2 : List Char} {i : Nat}
    (hb : bl.getD i ' ' = bl2.getD i ' ') (hb1 : bl.getD (i - 1) ' ' = bl2.getD (i - 1) ' ')
    (hs : sl.getD i ' ' = sl2.getD i ' ') (hs1 : sl.getD (i - 1) ' ' = sl2.getD (i - 1) ' ') :
    effBase ln bl sl i = effBase ln bl2 sl2 i := by
  unfold effBase
  rw [cellRead_congr hb hb1, cellRead_congr hs hs1]

theorem effShift_congr {ln : Nat} {bl bl2 sl sl2 : List Char} {i : Nat}
    (hb : bl.getD i ' ' = bl2.getD i ' ') (hb1 : bl.getD (i - 1) ' ' = bl2.getD (i - 1) ' ')
    (hs : sl.getD i ' ' = sl2.getD i ' ') (hs1 : sl.getD (i - 1) ' ' = sl2.getD (i - 1) ' ') :
    effShift ln bl sl i = effShift ln bl2 sl2 i := by
  unfold effShift
  rw [cellRead_congr hs hs1, effBase_congr hb hb1 hs hs1]

theorem effBase_blank_shift {bl sl : List Char} {i : Nat}
    (h : effBase 0 bl sl i = blank) : effShift 0 bl sl i = blank := by
  rw [effShift_zero_eq]
  rw [effBase_zero_eq] at h
  split at h
  · exact pyLower_eq_blank_iff.mp h
  · exact absurd h (by assumption)

theorem effShift_blank_upper {ln : Nat} {bl sl : List Char} {i : Nat} (hln : ln ≠ 0)
    (h : effShift ln bl sl i = blank) : upper_key (effBase ln bl sl i) = blank := by
  rw [effShift_pos_eq hln] at h
  split at h
  · exact h
  · rw [effBase_pos_eq hln]
    rw [upper_key_not_single]
    rename_i hne
    exact absurd h hne

theorem goodCell_ne_blank {v : List Char} (h : GoodCell v) : v ≠ blank := by
  rcases h with ⟨c, hc, rfl⟩ | ⟨c, rfl⟩
  · simp [blank]
    exact hc
  · simp [blank]

theorem pyLower_blank : pyLower blank = blank := by decide

theorem ifSome_getD (v : List Char) :
    ((if v ≠ blank then some v else none).getD blank) = v := by
  split
  · rfl
  · rename_i h
    rw [not_not] at h
    rw [h]
    rfl

/-- Reading back a fresh (unwritten) cell gives blank. -/
theorem cellRead_fresh {l : List Char} {i : Nat} (h1 : l.getD i ' ' = ' ')
    (h2 : l.getD (i - 1) ' ' = ' ') : cellRead l i = blank := by
  unfold cellRead
  rw [h1, h2]
  simp [blank]

/-- Reading back a written good cell recovers it. -/
theorem cellRead_writeCell {l : List Char} {i : Nat} (hi : 1 ≤ i) (hl : i < l.length)
    (hfresh : l.getD (i - 1) ' ' = ' ') {v : List Char} (hv : GoodCell v) :
    cellRead (if deadCell v then (l.set i (pyLast v)).set (i - 1) '*'
      else l.set i (pyLast v)) i = v := by
  rcases hv with ⟨c, hc, rfl⟩ | ⟨c, rfl⟩
  · have hd : ¬ deadCell [c] := by simp [deadCell]
    rw [if_neg hd]
    unfold cellRead
    rw [getD_set_ne _ (by omega), getD_set_eq _ hl, hfresh]
    simp [pyLast]
  · have hd : deadCell ['*', c] := by simp [deadCell]
    rw [if_pos hd]
    unfold cellRead
    rw [getD_set_eq _ (by simpa using Nat.lt_of_le_of_lt (Nat.sub_le i 1) hl)]
    rw [getD_set_ne _ (by omega), getD_set_eq _ hl]
    simp [pyLast]

/-- Reading back an unwritten-blank cell (`set i ' '` on a fresh line). -/
theorem cellRead_setBlank {l : List Char} {i : Nat} (hi : 1 ≤ i) (hl : i < l.length)
    (hfresh : l.getD (i - 1) ' ' = ' ') :
    cellRead (l.set i ' ') i = blank := by
  unfold cellRead
  rw [getD_set_ne _ (by omega), getD_set_eq _ hl, hfresh]
  simp [blank]

/-! ### Whole-template parse characterization -/

theorem parseKeys_layers_other {dks : List DeadKey} {ln : Nat} {bl sl : List Char} :
    ∀ {i : Nat} {ks : List String} {st : PSt} {L : Nat}, L ≠ ln → L ≠ ln + 1 →
      (parseKeys dks ln bl sl i ks st).layers L = st.layers L := by
  intro i ks
  induction ks generalizing i with
  | nil => intro st L _ _; rfl
  | cons key rest ih =>
    intro st L h1 h2
    simp only [parseKeys]
    rw [ih h1 h2, parseKey_layers_other _ _ _ _ _ _ _ h1 h2]

theorem parseTemplate_layers_other {dks : List DeadKey} {ln : Nat} :
    ∀ {tpl : List (List Char)} {rows : List Row} {st : PSt} {L : Nat},
      L ≠ ln → L ≠ ln + 1 →
      (parseTemplate dks ln tpl rows st).layers L = st.layers L := by
  intro tpl rows
  induction rows generalizing tpl with
  | nil => intro st L _ _; rfl
  | cons r rs ih =>
    intro st L h1 h2
    simp only [parseTemplate]
    rw [ih h1 h2, parseKeys_layers_other h1 h2]

theorem parseKeys_lookup_not_mem {dks : List DeadKey} {ln : Nat} {bl sl : List Char} :
    ∀ {i : Nat} {ks : List String} {st : PSt} {k : String}, k ∉ ks → ∀ L,
      dictGet ((parseKeys dks ln bl sl i ks st).layers L) k = dictGet (st.layers L) k := by
  intro i ks
  induction ks generalizing i with
  | nil => intro st k _ L; rfl
  | cons key rest ih =>
    intro st k hk L
    simp only [parseKeys]
    rw [ih (fun hh => hk (List.mem_cons_of_mem _ hh)) L,
      parseKey_lookup_ne dks ln bl sl i key st (fun hh => hk (hh ▸ List.mem_cons_self _ _)) L]

theorem parseTemplate_lookup_not_mem {dks : List DeadKey} {ln : Nat} :
    ∀ {tpl : List (List Char)} {rows : List Row} {st : PSt} {k : String},
      k ∉ allKeys rows → ∀ L,
      dictGet ((parseTemplate dks ln tpl rows st).layers L) k = dictGet (st.layers L) k := by
  intro tpl rows
  induction rows generalizing tpl with
  | nil => intro st k _ L; rfl
  | cons r rs ih =>
    intro st k hk L
    have hk1 : k ∉ r.keys := fun hh => hk (by simp [allKeys, hh])
    have hk2 : k ∉ allKeys rs := fun hh => hk (by
      simp only [allKeys, List.map_cons, List.flatten_cons, List.mem_append]
      exact Or.inr (by simpa [allKeys] using hh))
    simp only [parseTemplate]
    rw [ih hk2 L, parseKeys_lookup_not_mem hk1 L]

theorem parseKeys_lookup_mem {dks : List DeadKey} {ln : Nat} {bl sl : List Char} :
    ∀ {ks : List String} {i : Nat} {st : PSt} {p : Nat} (hp : p < ks.length),
      ks.Nodup →
      dictGet ((parseKeys dks ln bl sl i ks st).layers ln) (ks.get ⟨p, hp⟩) =
        (if effBase ln bl sl (i + 6 * p) ≠ blank then some (effBase ln bl sl (i + 6 * p))
         else dictGet (st.layers ln) (ks.get ⟨p, hp⟩)) ∧
      dictGet ((parseKeys dks ln bl sl i ks st).layers (ln + 1)) (ks.get ⟨p, hp⟩) =
        (if effShift ln bl sl (i + 6 * p) ≠ blank then some (effShift ln bl sl (i + 6 * p))
         else dictGet (st.layers (ln + 1)) (ks.get ⟨p, hp⟩)) := by
  intro ks
  induction ks with
  | nil => intro i st p hp; cases hp
  | cons key rest ih =>
    intro i st p hp hnd
    have hndrest : rest.Nodup := hnd.of_cons
    have hknotin : key ∉ rest := by
      have := List.nodup_cons.mp hnd
      exact this.1
    cases p with
    | zero =>
      simp only [List.get, Nat.mul_zero, Nat.add_zero]
      simp only [parseKeys]
      constructor
      · rw [parseKeys_lookup_not_mem hknotin ln, parseKey_lookup_base]
      · rw [parseKeys_lookup_not_mem hknotin (ln + 1), parseKey_lookup_shift]
    | succ p2 =>
      have hp2 : p2 < rest.length := by simpa using hp
      have hkey : rest.get ⟨p2, hp2⟩ ≠ key := by
        intro hh
        exact hknotin (hh ▸ List.get_mem rest p2 hp2)
      simp only [parseKeys]
      have harith : i + 6 + 6 * p2 = i + 6 * (p2 + 1) := by omega
      have hmain := @ih (i + 6) (parseKey dks ln bl sl i key st) p2 hp2 hndrest
      rw [harith] at hmain
      simp only [List.get_cons_succ]
      refine ⟨?_, ?_⟩
      · rw [hmain.1, parseKey_lookup_ne dks ln bl sl i key st hkey ln]
      · rw [hmain.2, parseKey_lookup_ne dks ln bl sl i key st hkey (ln + 1)]

theorem allKeys_cons (r : Row) (rs : List Row) :
    allKeys (r :: rs) = r.keys ++ allKeys rs := by
  simp [allKeys]

theorem mem_allKeys_of {rows : List Row} {j : Nat} (hj : j < rows.length) {k : String}
    (hk : k ∈ (rows.get ⟨j, hj⟩).keys) : k ∈ allKeys rows := by
  unfold allKeys
  rw [List.mem_flatten]
  exact ⟨(rows.get ⟨j, hj⟩).keys,
    List.mem_map_of_mem _ (List.get_mem rows j hj), hk⟩

theorem mem_allKeys {rows : List Row} {k : String} (h : k ∈ allKeys rows) :
    ∃ j, ∃ hj : j < rows.length, ∃ p, ∃ hp : p < (rows.get ⟨j, hj⟩).keys.length,
      (rows.get ⟨j, hj⟩).keys.get ⟨p, hp⟩ = k := by
  unfold allKeys at h
  obtain ⟨l, hl, hkl⟩ := List.mem_flatten.mp h
  obtain ⟨r, hr, hrl⟩ := List.mem_map.mp hl
  obtain ⟨⟨j, hj⟩, hrj⟩ := List.mem_iff_get.mp hr
  subst hrl
  subst hrj
  obtain ⟨⟨p, hp⟩, hpk⟩ := List.mem_iff_get.mp hkl
  exact ⟨j, hj, p, hp, hpk⟩

theorem parseTemplate_lookup_mem {dks : List DeadKey} {ln : Nat} :
    ∀ {rows : List Row} {tpl : List (List Char)} {st : PSt} {j p : Nat}
      (hj : j < rows.length) (r : Row), rows.get ⟨j, hj⟩ = r →
      ∀ (hp : p < r.keys.length) (key : String), r.keys.get ⟨p, hp⟩ = key →
      (allKeys rows).Nodup →
      dictGet ((parseTemplate dks ln tpl rows st).layers ln) key =
        (if effBase ln ((tpl.drop (3 * j)).getD 2 []) ((tpl.drop (3 * j)).getD 1 [])
            (r.offset + colOffset ln + 6 * p) ≠ blank
         then some (effBase ln ((tpl.drop (3 * j)).getD 2 []) ((tpl.drop (3 * j)).getD 1 [])
            (r.offset + colOffset ln + 6 * p))
         else dictGet (st.layers ln) key) ∧
      dictGet ((parseTemplate dks ln tpl rows st).layers (ln + 1)) key =
        (if effShift ln ((tpl.drop (3 * j)).getD 2 []) ((tpl.drop (3 * j)).getD 1 [])
            (r.offset + colOffset ln + 6 * p) ≠ blank
         then some (effShift ln ((tpl.drop (3 * j)).getD 2 []) ((tpl.drop (3 * j)).getD 1 [])
            (r.offset + colOffset ln + 6 * p))
         else dictGet (st.layers (ln + 1)) key) := by
  intro rows
  induction rows with
  | nil => intro tpl st j p hj; cases hj
  | cons r0 rs ih =>
    intro tpl st j p hj r hr hp key hkey hnd
    rw [allKeys_cons, List.nodup_append] at hnd
    obtain ⟨hnd1, hnd2, hdisj⟩ := hnd
    cases j with
    | zero =>
      simp only [List.get] at hr
      subst hr
      subst hkey
      have hkmem : r0.keys.get ⟨p, hp⟩ ∈ r0.keys := List.get_mem r0.keys p hp
      have hnotin : r0.keys.get ⟨p, hp⟩ ∉ allKeys rs := fun hh => hdisj hkmem hh
      simp only [parseTemplate]
      simp only [Nat.mul_zero, List.drop_zero]
      have hkk := @parseKeys_lookup_mem dks ln (tpl.getD 2 []) (tpl.getD 1 [])
        r0.keys (r0.offset + colOffset ln) st p hp hnd1
      constructor
      · rw [parseTemplate_lookup_not_mem hnotin ln, hkk.1]
      · rw [parseTemplate_lookup_not_mem hnotin (ln + 1), hkk.2]
    | succ j2 =>
      have hj2 : j2 < rs.length := by simpa using hj
      have hr2 : rs.get ⟨j2, hj2⟩ = r := by simpa using hr
      have hkmem : key ∈ allKeys rs := by
        subst hkey
        apply mem_allKeys_of hj2
        rw [hr2]
        exact List.get_mem _ p _
      have hknotin : key ∉ r0.keys := fun hh => hdisj hh hkmem
      simp only [parseTemplate]
      have hdrop : (tpl.drop 3).drop (3 * j2) = tpl.drop (3 * (j2 + 1)) := by
        rw [List.drop_drop]
        congr 1
        omega
      have hmain := @ih (tpl.drop 3)
        (parseKeys dks ln (tpl.getD 2 []) (tpl.getD 1 [])
          (r0.offset + colOffset ln) r0.keys st) j2 p hj2 r hr2 hp key hkey hnd2
      simp only [hdrop] at hmain
      constructor
      · rw [hmain.1, parseKeys_lookup_not_mem hknotin ln]
      · rw [hmain.2, parseKeys_lookup_not_mem hknotin (ln + 1)]

/-! ### Whole-template fill characterization -/

theorem fillCells_fst_length (ln : Nat) (bk sk : List Char) (i : Nat) (b s : List Char) :
    (fillCells ln bk sk i b s).1.length = b.length := by
  by_cases h0 : ln = 0
  · subst h0
    rw [fillCells_fst_zero]
    split
    · exact writeCell_length _
    · rfl
  · rw [fillCells_fst_pos h0]
    exact writeCell_length _

theorem fillCells_snd_length (ln : Nat) (bk sk : List Char) (i : Nat) (b s : List Char) :
    (fillCells ln bk sk i b s).2.length = s.length := by
  by_cases h0 : ln = 0
  · subst h0
    rw [fillCells_snd_zero]
    exact writeCell_length _
  · rw [fillCells_snd_pos h0]
    split
    · exact writeCell_length _
    · rfl

theorem fillCells_fst_getD_other {ln : Nat} {bk sk : List Char} {i q : Nat}
    {b s : List Char} (hq1 : q ≠ i) (hq2 : q ≠ i - 1) :
    (fillCells ln bk sk i b s).1.getD q ' ' = b.getD q ' ' := by
  by_cases h0 : ln = 0
  · subst h0
    rw [fillCells_fst_zero]
    split
    · exact writeCell_getD_other hq1 hq2 _
    · rfl
  · rw [fillCells_fst_pos h0]
    exact writeCell_getD_other hq1 hq2 _

theorem fillCells_snd_getD_other {ln : Nat} {bk sk : List Char} {i q : Nat}
    {b s : List Char} (hq1 : q ≠ i) (hq2 : q ≠ i - 1) :
    (fillCells ln bk sk i b s).2.getD q ' ' = s.getD q ' ' := by
  by_cases h0 : ln = 0
  · subst h0
    rw [fillCells_snd_zero]
    exact writeCell_getD_other hq1 hq2 _
  · rw [fillCells_snd_pos h0]
    split
    · exact writeCell_getD_other hq1 hq2 _
    · rfl

theorem writeCell_getD_congr {l l2 : List Char} {i q : Nat} (hq : q = i ∨ q = i - 1)
    (hi : 1 ≤ i) (hl : i < l.length) (hl2 : i < l2.length)
    (hlq : l.getD q ' ' = l2.getD q ' ') (v : List Char) {dead : Prop} [Decidable dead] :
    ((if dead then (l.set i (pyLast v)).set (i - 1) '*' else l.set i (pyLast v)).getD q ' ')
      = ((if dead then (l2.set i (pyLast v)).set (i - 1) '*'
          else l2.set i (pyLast v)).getD q ' ') := by
  rcases hq with rfl | rfl
  · rw [writeCell_getD_glyph hl hi, writeCell_getD_glyph hl2 hi]
  · by_cases hd : dead
    · rw [writeCell_getD_marker hl _ hd, writeCell_getD_marker hl2 _ hd]
    · rw [writeCell_getD_marker_not hi _ hd, writeCell_getD_marker_not hi _ hd, hlq]

theorem fillCells_getD_congr (ln : Nat) (bk sk : List Char) {i q : Nat}
    (hq : q = i ∨ q = i - 1) (hi : 1 ≤ i) {b b2 s s2 : List Char}
    (hlb : i < b.length) (hlb2 : i < b2.length) (hls : i < s.length) (hls2 : i < s2.length)
    (hbq : b.getD q ' ' = b2.getD q ' ') (hsq : s.getD q ' ' = s2.getD q ' ') :
    (fillCells ln bk sk i b s).1.getD q ' ' = (fillCells ln bk sk i b2 s2).1.getD q ' ' ∧
    (fillCells ln bk sk i b s).2.getD q ' ' = (fillCells ln bk sk i b2 s2).2.getD q ' ' := by
  constructor
  · by_cases h0 : ln = 0
    · subst h0
      rw [fillCells_fst_zero, fillCells_fst_zero]
      split
      · exact writeCell_getD_congr hq hi hlb hlb2 hbq _
      · exact hbq
    · rw [fillCells_fst_pos h0, fillCells_fst_pos h0]
      exact writeCell_getD_congr hq hi hlb hlb2 hbq _
  · by_cases h0 : ln = 0
    · subst h0
      rw [fillCells_snd_zero, fillCells_snd_zero]
      exact writeCell_getD_congr hq hi hls hls2 hsq _
    · rw [fillCells_snd_pos h0, fillCells_snd_pos h0]
      split
      · exact writeCell_getD_congr hq hi hls hls2 hsq _
      · exact hsq

theorem fillKey_getD_agrees {layers : Layers} {ln : Nat} {key : String} {i0 q : Nat}
    {bs : List Char × List Char} (hq1 : q ≠ i0) (hq2 : q ≠ i0 - 1) :
    (fillKey layers ln key i0 bs).1.getD q ' ' = bs.1.getD q ' ' ∧
    (fillKey layers ln key i0 bs).2.getD q ' ' = bs.2.getD q ' ' := by
  unfold fillKey
  exact ⟨fillCells_fst_getD_other hq1 hq2, fillCells_snd_getD_other hq1 hq2⟩

theorem fillKey_length {layers : Layers} {ln : Nat} {key : String} {i : Nat}
    {bs : List Char × List Char} :
    (fillKey layers ln key i bs).1.length = bs.1.length ∧
    (fillKey layers ln key i bs).2.length = bs.2.length := by
  unfold fillKey
  exact ⟨fillCells_fst_length _ _ _ _ _ _, fillCells_snd_length _ _ _ _ _ _⟩

theorem fillKeys_getD_lt {layers : Layers} {ln : Nat} :
    ∀ {ks : List String} {i : Nat} {bs : List Char × List Char} {q : Nat}, q + 1 < i →
      (fillKeys layers ln i ks bs).1.getD q ' ' = bs.1.getD q ' ' ∧
      (fillKeys layers ln i ks bs).2.getD q ' ' = bs.2.getD q ' ' := by
  intro ks
  induction ks with
  | nil => intro i bs q _; exact ⟨rfl, rfl⟩
  | cons key rest ih =>
    intro i bs q hq
    simp only [fillKeys]
    have h1 := @ih (i + 6) (fillKey layers ln key i bs) q (by omega)
    have h2 := @fillKey_getD_agrees layers ln key i q bs (by omega) (by omega)
    exact ⟨h1.1.trans h2.1, h1.2.trans h2.2⟩

theorem fillKeys_getD_key {layers : Layers} {ln : Nat} :
    ∀ {ks : List String} {i0 : Nat} {bs : List Char × List Char} {p : Nat}
      (hp : p < ks.length), 1 ≤ i0 →
      i0 + 6 * p < bs.1.length → i0 + 6 * p < bs.2.length →
      ∀ q, (q = i0 + 6 * p ∨ q = i0 + 6 * p - 1) →
        (fillKeys layers ln i0 ks bs).1.getD q ' ' =
          (fillKey layers ln (ks.get ⟨p, hp⟩) (i0 + 6 * p) bs).1.getD q ' ' ∧
        (fillKeys layers ln i0 ks bs).2.getD q ' ' =
          (fillKey layers ln (ks.get ⟨p, hp⟩) (i0 + 6 * p) bs).2.getD q ' ' := by
  intro ks
  induction ks with
  | nil => intro i0 bs p hp; cases hp
  | cons key rest ih =>
    intro i0 bs p hp hi0 hlb hls q hq
    cases p with
    | zero =>
      simp only [Nat.mul_zero, Nat.add_zero] at hq hlb hls ⊢
      simp only [fillKeys, List.get]
      exact fillKeys_getD_lt (by omega)
    | succ p2 =>
      have hp2 : p2 < rest.length := by simpa using hp
      have harith : i0 + 6 + 6 * p2 = i0 + 6 * (p2 + 1) := by omega
      simp only [fillKeys, List.get_cons_succ]
      have hl1 := @fillKey_length layers ln key i0 bs
      have hmain := @ih (i0 + 6) (fillKey layers ln key i0 bs) p2 hp2 (by omega)
        (by rw [hl1.1]; omega) (by rw [hl1.2]; omega) q (by omega)
      rw [harith] at hmain
      have hagree := @fillKey_getD_agrees layers ln key i0 q bs (by omega) (by omega)
      have hcongr : (fillKey layers ln (rest.get ⟨p2, hp2⟩) (i0 + 6 * (p2 + 1))
            (fillKey layers ln key i0 bs)).1.getD q ' ' =
          (fillKey layers ln (rest.get ⟨p2, hp2⟩) (i0 + 6 * (p2 + 1)) bs).1.getD q ' ' ∧
          (fillKey layers ln (rest.get ⟨p2, hp2⟩) (i0 + 6 * (p2 + 1))
            (fillKey layers ln key i0 bs)).2.getD q ' ' =
          (fillKey layers ln (rest.get ⟨p2, hp2⟩) (i0 + 6 * (p2 + 1)) bs).2.getD q ' ' := by
        unfold fillKey
        exact fillCells_getD_congr ln _ _ hq (by omega)
          (by rw [fillCells_fst_length]; omega)
          (by omega)
          (by rw [fillCells_snd_length]; omega)
          (by omega) hagree.1 hagree.2
      exact ⟨hmain.1.trans hcongr.1, hmain.2.trans hcongr.2⟩

theorem freshTpl_cons {ln : Nat} {tpl : List (List Char)} {r : Row} {rs : List Row}
    (h : freshTpl ln tpl (r :: rs) = true) :
    3 ≤ tpl.length ∧
    freshLine (tpl.getD 1 []) (r.offset + colOffset ln) r.keys.length = true ∧
    freshLine (tpl.getD 2 []) (r.offset + colOffset ln) r.keys.length = true ∧
    freshTpl ln (tpl.drop 3) rs = true := by
  simp only [freshTpl, Bool.and_eq_true, decide_eq_true_eq] at h
  exact ⟨h.1.1.1, h.1.1.2, h.1.2, h.2⟩

theorem freshLine_spec {line : List Char} {i0 n : Nat} (h : freshLine line i0 n = true)
    {p : Nat} (hp : p < n) :
    i0 + 6 * p < line.length ∧ line.getD (i0 + 6 * p) ' ' = ' ' ∧
    line.getD (i0 + 6 * p - 1) ' ' = ' ' := by
  simp only [freshLine, List.all_eq_true, List.mem_range] at h
  have h2 := h p hp
  simp only [Bool.and_eq_true, decide_eq_true_eq, beq_iff_eq] at h2
  exact ⟨h2.1.1, h2.1.2, h2.2⟩

theorem getD_take_of_lt {α : Type} (l : List α) {n m : Nat} (h : n < m) (d : α) :
    (l.take m).getD n d = l.getD n d := by
  simp [List.getD_eq_getElem?_getD, List.getElem?_take, h]

theorem fillTemplate_cons (layers : Layers) (ln : Nat) (tpl : List (List Char))
    (r : Row) (rs : List Row) :
    fillTemplate layers ln tpl (r :: rs) =
      ((tpl.set 2 (fillKeys layers ln (r.offset + colOffset ln) r.keys
          (tpl.getD 2 [], tpl.getD 1 [])).1).set 1
        (fillKeys layers ln (r.offset + colOffset ln) r.keys
          (tpl.getD 2 [], tpl.getD 1 [])).2).take 3 ++
      fillTemplate layers ln
        (((tpl.set 2 (fillKeys layers ln (r.offset + colOffset ln) r.keys
            (tpl.getD 2 [], tpl.getD 1 [])).1).set 1
          (fillKeys layers ln (r.offset + colOffset ln) r.keys
            (tpl.getD 2 [], tpl.getD 1 [])).2).drop 3) rs := rfl

theorem fillTemplate_chunk {layers : Layers} {ln : Nat} :
    ∀ {rows : List Row} {tpl : List (List Char)} {j : Nat} (hj : j < rows.length),
      freshTpl ln tpl rows = true →
      ((fillTemplate layers ln tpl rows).drop (3 * j)).getD 2 [] =
        (fillKeys layers ln ((rows.get ⟨j, hj⟩).offset + colOffset ln)
          (rows.get ⟨j, hj⟩).keys
          ((tpl.drop (3 * j)).getD 2 [], (tpl.drop (3 * j)).getD 1 [])).1 ∧
      ((fillTemplate layers ln tpl rows).drop (3 * j)).getD 1 [] =
        (fillKeys layers ln ((rows.get ⟨j, hj⟩).offset + colOffset ln)
          (rows.get ⟨j, hj⟩).keys
          ((tpl.drop (3 * j)).getD 2 [], (tpl.drop (3 * j)).getD 1 [])).2 := by
  intro rows
  induction rows with
  | nil => intro tpl j hj; cases hj
  | cons r rs ih =>
    intro tpl j hj hfresh
    obtain ⟨h3, _, _, hrest⟩ := freshTpl_cons hfresh
    rw [fillTemplate_cons]
    set R := fillKeys layers ln (r.offset + colOffset ln) r.keys
      (tpl.getD 2 [], tpl.getD 1 []) with hR
    have hlen : ((tpl.set 2 R.1).set 1 R.2).length = tpl.length := by simp
    have htake : (((tpl.set 2 R.1).set 1 R.2).take 3).length = 3 := by
      rw [List.length_take, hlen]; omega
    have hdrop : ((tpl.set 2 R.1).set 1 R.2).drop 3 = tpl.drop 3 := by
      rw [List.drop_set_of_lt _ _ (by omega), List.drop_set_of_lt _ _ (by omega)]
    cases j with
    | zero =>
      have h2get : (((tpl.set 2 R.1).set 1 R.2).take 3).getD 2 [] = R.1 := by
        rw [getD_take_of_lt _ (by omega), getD_set_ne _ (by omega),
          getD_set_eq _ (by omega)]
      have h1get : (((tpl.set 2 R.1).set 1 R.2).take 3).getD 1 [] = R.2 := by
        rw [getD_take_of_lt _ (by omega),
          getD_set_eq _ (by rw [List.length_set]; omega)]
      constructor
      · rw [Nat.mul_zero, List.drop_zero, List.drop_zero,
          List.getD_append _ _ _ _ (by rw [htake]; omega), h2get]
        exact congrArg Prod.fst hR
      · rw [Nat.mul_zero, List.drop_zero, List.drop_zero,
          List.getD_append _ _ _ _ (by rw [htake]; omega), h1get]
        exact congrArg Prod.snd hR
    | succ j2 =>
      have hj2 : j2 < rs.length := by simpa using hj
      have harith : 3 * (j2 + 1) = 3 + 3 * j2 := by omega
      rw [harith]
      have happ : ∀ (A B : List (List Char)) (n : Nat), A.length = 3 →
          (A ++ B).drop (3 + n) = B.drop n := by
        intro A B n hA
        rw [show 3 + n = A.length + n from by rw [hA]]
        exact List.drop_append n
      rw [happ _ _ _ htake, hdrop]
      have hmain := @ih (tpl.drop 3) j2 hj2 hrest
      rw [show (tpl.drop 3).drop (3 * j2) = tpl.drop (3 + 3 * j2) from
        List.drop_drop _ _ _] at hmain
      exact hmain

/-- Round trip of one key cell pair: filling a key's two cells into fresh
columns and re-reading them through the parser's presentation expansion
recovers the model's entries, given the parse-produced invariants and the
amended compatibility condition on the BASE/SHIFT pair. -/
theorem roundKey {ln i : Nat} {b s : List Char} {bM sM : Option (List Char)}
    (hi : 1 ≤ i) (hlb : i < b.length) (hls : i < s.length)
    (hfbi : b.getD i ' ' = ' ') (hfb1 : b.getD (i - 1) ' ' = ' ')
    (hfsi : s.getD i ' ' = ' ') (hfs1 : s.getD (i - 1) ' ' = ' ')
    (hgb : ∀ v, bM = some v → GoodCell v) (hgs : ∀ v, sM = some v → GoodCell v)
    (hzero : ln = 0 → bM = none → sM = none)
    (hpos : ln ≠ 0 → sM = none → upper_key (bM.getD blank) = blank)
    (hcond : ln = 0 → upper_key (bM.getD blank) = sM.getD blank →
      pyLower (sM.getD blank) = bM.getD blank) :
    (if effBase ln (fillCells ln (bM.getD blank) (sM.getD blank) i b s).1
         (fillCells ln (bM.getD blank) (sM.getD blank) i b s).2 i ≠ blank
     then some (effBase ln (fillCells ln (bM.getD blank) (sM.getD blank) i b s).1
         (fillCells ln (bM.getD blank) (sM.getD blank) i b s).2 i)
     else none) = bM ∧
    (if effShift ln (fillCells ln (bM.getD blank) (sM.getD blank) i b s).1
         (fillCells ln (bM.getD blank) (sM.getD blank) i b s).2 i ≠ blank
     then some (effShift ln (fillCells ln (bM.getD blank) (sM.getD blank) i b s).1
         (fillCells ln (bM.getD blank) (sM.getD blank) i b s).2 i)
     else none) = sM := by
  rcases bM with _ | v <;> rcases sM with _ | w <;>
    simp only [Option.getD_none, Option.getD_some] at hzero hpos hcond ⊢
  · -- both entries absent
    by_cases hln : ln = 0
    · subst hln
      have hcs : cellRead (fillCells 0 blank blank i b s).2 i = blank := by
        rw [fillCells_snd_zero, if_neg (show ¬ deadCell blank from by decide),
          show pyLast blank = ' ' from by decide]
        exact cellRead_setBlank hi hls hfs1
      have hub : ¬ upper_key blank ≠ blank := not_not_intro upper_key_blank
      have hcb : cellRead (fillCells 0 blank blank i b s).1 i = blank := by
        rw [fillCells_fst_zero, if_neg hub]
        exact cellRead_fresh hfbi hfb1
      constructor
      · rw [effBase_zero_eq, hcb, if_pos rfl, hcs, pyLower_blank, if_neg (not_not_intro rfl)]
      · rw [effShift_zero_eq, hcs, if_neg (not_not_intro rfl)]
    · have hub : ¬ upper_key blank ≠ blank := not_not_intro upper_key_blank
      have hcb : cellRead (fillCells ln blank blank i b s).1 i = blank := by
        rw [fillCells_fst_pos hln, if_neg (show ¬ deadCell blank from by decide),
          show pyLast blank = ' ' from by decide]
        exact cellRead_setBlank hi hlb hfb1
      have hcs : cellRead (fillCells ln blank blank i b s).2 i = blank := by
        rw [fillCells_snd_pos hln, if_neg hub]
        exact cellRead_fresh hfsi hfs1
      constructor
      · rw [effBase_pos_eq hln, hcb, if_neg (not_not_intro rfl)]
      · rw [effShift_pos_eq hln, hcs, if_pos rfl, effBase_pos_eq hln, hcb, upper_key_blank,
          if_neg (not_not_intro rfl)]
  · -- base absent, shift present
    have hgw := hgs w rfl
    have hwne : w ≠ blank := goodCell_ne_blank hgw
    by_cases hln : ln = 0
    · exact absurd (hzero hln trivial) (fun hh => Option.noConfusion hh)
    · have hub : upper_key blank ≠ w := by
        rw [upper_key_blank]; exact fun hh => hwne hh.symm
      have hcb : cellRead (fillCells ln blank w i b s).1 i = blank := by
        rw [fillCells_fst_pos hln, if_neg (show ¬ deadCell blank from by decide),
          show pyLast blank = ' ' from by decide]
        exact cellRead_setBlank hi hlb hfb1
      have hcs : cellRead (fillCells ln blank w i b s).2 i = w := by
        rw [fillCells_snd_pos hln, if_pos hub]
        exact cellRead_writeCell hi hls hfs1 hgw
      constructor
      · rw [effBase_pos_eq hln, hcb, if_neg (not_not_intro rfl)]
      · rw [effShift_pos_eq hln, hcs, if_neg hwne, if_pos hwne]
  · -- base present, shift absent
    have hgv := hgb v rfl
    have hvne : v ≠ blank := goodCell_ne_blank hgv
    by_cases hln : ln = 0
    · subst hln
      have hcs : cellRead (fillCells 0 v blank i b s).2 i = blank := by
        rw [fillCells_snd_zero, if_neg (show ¬ deadCell blank from by decide),
          show pyLast blank = ' ' from by decide]
        exact cellRead_setBlank hi hls hfs1
      by_cases hup : upper_key v ≠ blank
      · have hcb : cellRead (fillCells 0 v blank i b s).1 i = v := by
          rw [fillCells_fst_zero, if_pos hup]
          exact cellRead_writeCell hi hlb hfb1 hgv
        constructor
        · rw [effBase_zero_eq, hcb, if_neg hvne, if_pos hvne]
        · rw [effShift_zero_eq, hcs, if_neg (not_not_intro rfl)]
      · have h1 : upper_key v = blank := not_not.mp hup
        have h2 := hcond rfl h1
        rw [pyLower_blank] at h2
        exact absurd h2.symm hvne
    · have hup2 : upper_key v = blank := hpos hln trivial
      have hub : ¬ upper_key v ≠ blank := not_not_intro hup2
      have hcb : cellRead (fillCells ln v blank i b s).1 i = v := by
        rw [fillCells_fst_pos hln]
        exact cellRead_writeCell hi hlb hfb1 hgv
      have hcs : cellRead (fillCells ln v blank i b s).2 i = blank := by
        rw [fillCells_snd_pos hln, if_neg hub]
        exact cellRead_fresh hfsi hfs1
      constructor
      · rw [effBase_pos_eq hln, hcb, if_pos hvne]
      · rw [effShift_pos_eq hln, hcs, if_pos rfl, effBase_pos_eq hln, hcb, hup2,
          if_neg (not_not_intro rfl)]
  · -- both present
    have hgv := hgb v rfl
    have hgw := hgs w rfl
    have hvne : v ≠ blank := goodCell_ne_blank hgv
    have hwne : w ≠ blank := goodCell_ne_blank hgw
    by_cases hln : ln = 0
    · subst hln
      have hcs : cellRead (fillCells 0 v w i b s).2 i = w := by
        rw [fillCells_snd_zero]
        exact cellRead_writeCell hi hls hfs1 hgw
      by_cases hup : upper_key v ≠ w
      · have hcb : cellRead (fillCells 0 v w i b s).1 i = v := by
          rw [fillCells_fst_zero, if_pos hup]
          exact cellRead_writeCell hi hlb hfb1 hgv
        constructor
        · rw [effBase_zero_eq, hcb, if_neg hvne, if_pos hvne]
        · rw [effShift_zero_eq, hcs, if_pos hwne]
      · have h1 : upper_key v = w := not_not.mp hup
        have h2 := hcond rfl h1
        have hcb : cellRead (fillCells 0 v w i b s).1 i = blank := by
          rw [fillCells_fst_zero, if_neg hup]
          exact cellRead_fresh hfbi hfb1
        constructor
        · rw [effBase_zero_eq, hcb, if_pos rfl, hcs, h2, if_pos hvne]
        · rw [effShift_zero_eq, hcs, if_pos hwne]
    · have hcb : cellRead (fillCells ln v w i b s).1 i = v := by
        rw [fillCells_fst_pos hln]
        exact cellRead_writeCell hi hlb hfb1 hgv
      constructor
      · rw [effBase_pos_eq hln, hcb, if_pos hvne]
      · by_cases hup : upper_key v ≠ w
        · have hcs : cellRead (fillCells ln v w i b s).2 i = w := by
            rw [fillCells_snd_pos hln, if_pos hup]
            exact cellRead_writeCell hi hls hfs1 hgw
          rw [effShift_pos_eq hln, hcs, if_neg hwne, if_pos hwne]
        · have h1 : upper_key v = w := not_not.mp hup
          have hcs : cellRead (fillCells ln v w i b s).2 i = blank := by
            rw [fillCells_snd_pos hln, if_neg hup]
            exact cellRead_fresh hfsi hfs1
          rw [effShift_pos_eq hln, hcs, if_pos rfl, effBase_pos_eq hln, hcb, h1, if_pos hwne]

theorem freshTpl_chunk {ln : Nat} :
    ∀ {rows : List Row} {tpl : List (List Char)} {j : Nat} (hj : j < rows.length),
      freshTpl ln tpl rows = true →
      freshLine ((tpl.drop (3 * j)).getD 1 [])
        ((rows.get ⟨j, hj⟩).offset + colOffset ln) (rows.get ⟨j, hj⟩).keys.length = true ∧
      freshLine ((tpl.drop (3 * j)).getD 2 [])
        ((rows.get ⟨j, hj⟩).offset + colOffset ln) (rows.get ⟨j, hj⟩).keys.length = true := by
  intro rows
  induction rows with
  | nil => intro tpl j hj; cases hj
  | cons r rs ih =>
    intro tpl j hj hfresh
    obtain ⟨h3, hf1, hf2, hrest⟩ := freshTpl_cons hfresh
    cases j with
    | zero =>
      simp only [Nat.mul_zero, List.drop_zero, List.get]
      exact ⟨hf1, hf2⟩
    | succ j2 =>
      have hj2 : j2 < rs.length := by simpa using hj
      have hmain := @ih (tpl.drop 3) j2 hj2 hrest
      rw [show (tpl.drop 3).drop (3 * j2) = tpl.drop (3 * (j2 + 1)) from by
        rw [List.drop_drop]; congr 1; omega] at hmain
      exact hmain

theorem parse_good {dks : List DeadKey} {ln : Nat} {tpl : List (List Char)}
    {rows : List Row} :
    ∀ L k v, dictGet ((parseTemplate dks ln tpl rows emptyPSt).layers L) k = some v →
      GoodCell v :=
  parseTemplate_good (fun _ _ _ h => Option.noConfusion h)

theorem parse_zero_none {dks : List DeadKey} {tpl : List (List Char)} {rows : List Row}
    (hnd : (allKeys rows).Nodup) (k : String)
    (h : dictGet ((parseTemplate dks 0 tpl rows emptyPSt).layers 0) k = none) :
    dictGet ((parseTemplate dks 0 tpl rows emptyPSt).layers 1) k = none := by
  by_cases hmem : k ∈ allKeys rows
  · obtain ⟨j, hj, p, hp, hkey⟩ := mem_allKeys hmem
    have hc := @parseTemplate_lookup_mem dks 0 rows tpl emptyPSt j p
      hj (rows.get ⟨j, hj⟩) rfl hp k hkey hnd
    rw [hc.1] at h
    by_cases hb : effBase 0 ((tpl.drop (3 * j)).getD 2 []) ((tpl.drop (3 * j)).getD 1 [])
        ((rows.get ⟨j, hj⟩).offset + colOffset 0 + 6 * p) = blank
    · have hshift := effBase_blank_shift hb
      have h2 := hc.2
      rw [if_neg (not_not_intro hshift)] at h2
      exact h2
    · rw [if_pos hb] at h
      exact Option.noConfusion h
  · exact parseTemplate_lookup_not_mem hmem 1

theorem parse_pos_upper {dks : List DeadKey} {tpl : List (List Char)} {rows : List Row}
    {ln : Nat} (hln : ln ≠ 0) (hnd : (allKeys rows).Nodup) (k : String)
    (h : dictGet ((parseTemplate dks ln tpl rows emptyPSt).layers (ln + 1)) k = none) :
    upper_key ((dictGet ((parseTemplate dks ln tpl rows emptyPSt).layers ln) k).getD blank)
      = blank := by
  by_cases hmem : k ∈ allKeys rows
  · obtain ⟨j, hj, p, hp, hkey⟩ := mem_allKeys hmem
    have hc := @parseTemplate_lookup_mem dks ln rows tpl emptyPSt j p
      hj (rows.get ⟨j, hj⟩) rfl hp k hkey hnd
    rw [hc.2] at h
    by_cases hs : effShift ln ((tpl.drop (3 * j)).getD 2 []) ((tpl.drop (3 * j)).getD 1 [])
        ((rows.get ⟨j, hj⟩).offset + colOffset ln + 6 * p) = blank
    · have hup := effShift_blank_upper hln hs
      rw [hc.1, show dictGet (emptyPSt.layers ln) k = (none : Option (List Char)) from rfl,
        ifSome_getD]
      exact hup
    · rw [if_pos hs] at h
      exact Option.noConfusion h
  · rw [parseTemplate_lookup_not_mem hmem ln]
    exact upper_key_blank

theorem roundChunk {layers : Layers} {ln : Nat} {c2 c1 : List Char} {i0 : Nat}
    {ks : List String} {p : Nat} (hp : p < ks.length) (hi0 : 1 ≤ i0)
    (hf1 : freshLine c1 i0 ks.length = true) (hf2 : freshLine c2 i0 ks.length = true)
    {key : String} (hkey : ks.get ⟨p, hp⟩ = key)
    (hgb : ∀ v, dictGet (layers ln) key = some v → GoodCell v)
    (hgs : ∀ v, dictGet (layers (ln + 1)) key = some v → GoodCell v)
    (hzero : ln = 0 → dictGet (layers ln) key = none →
      dictGet (layers (ln + 1)) key = none)
    (hpos : ln ≠ 0 → dictGet (layers (ln + 1)) key = none →
      upper_key ((dictGet (layers ln) key).getD blank) = blank)
    (hcond : ln = 0 →
      upper_key ((dictGet (layers ln) key).getD blank)
        = (dictGet (layers (ln + 1)) key).getD blank →
      pyLower ((dictGet (layers (ln + 1)) key).getD blank)
        = (dictGet (layers ln) key).getD blank) :
    (if effBase ln (fillKeys layers ln i0 ks (c2, c1)).1
         (fillKeys layers ln i0 ks (c2, c1)).2 (i0 + 6 * p) ≠ blank
     then some (effBase ln (fillKeys layers ln i0 ks (c2, c1)).1
         (fillKeys layers ln i0 ks (c2, c1)).2 (i0 + 6 * p))
     else none) = dictGet (layers ln) key ∧
    (if effShift ln (fillKeys layers ln i0 ks (c2, c1)).1
         (fillKeys layers ln i0 ks (c2, c1)).2 (i0 + 6 * p) ≠ blank
     then some (effShift ln (fillKeys layers ln i0 ks (c2, c1)).1
         (fillKeys layers ln i0 ks (c2, c1)).2 (i0 + 6 * p))
     else none) = dictGet (layers (ln + 1)) key := by
  have hs1 := freshLine_spec hf1 hp
  have hs2 := freshLine_spec hf2 hp
  have hi : 1 ≤ i0 + 6 * p := by omega
  have hq1 := @fillKeys_getD_key layers ln ks i0 (c2, c1) p
    hp hi0 hs2.1 hs1.1 (i0 + 6 * p) (Or.inl rfl)
  have hq2 := @fillKeys_getD_key layers ln ks i0 (c2, c1) p
    hp hi0 hs2.1 hs1.1 (i0 + 6 * p - 1) (Or.inr rfl)
  have heb : effBase ln (fillKeys layers ln i0 ks (c2, c1)).1
      (fillKeys layers ln i0 ks (c2, c1)).2 (i0 + 6 * p)
      = effBase ln (fillKey layers ln (ks.get ⟨p, hp⟩) (i0 + 6 * p) (c2, c1)).1
          (fillKey layers ln (ks.get ⟨p, hp⟩) (i0 + 6 * p) (c2, c1)).2 (i0 + 6 * p) :=
    effBase_congr hq1.1 hq2.1 hq1.2 hq2.2
  have hes : effShift ln (fillKeys layers ln i0 ks (c2, c1)).1
      (fillKeys layers ln i0 ks (c2, c1)).2 (i0 + 6 * p)
      = effShift ln (fillKey layers ln (ks.get ⟨p, hp⟩) (i0 + 6 * p) (c2, c1)).1
          (fillKey layers ln (ks.get ⟨p, hp⟩) (i0 + 6 * p) (c2, c1)).2 (i0 + 6 * p) :=
    effShift_congr hq1.1 hq2.1 hq1.2 hq2.2
  rw [heb, hes, hkey]
  exact @roundKey ln (i0 + 6 * p) c2 c1
    (dictGet (layers ln) key) (dictGet (layers (ln + 1)) key)
    hi hs2.1 hs1.1 hs2.2.1 hs2.2.2 hs1.2.1 hs1.2.2 hgb hgs hzero hpos hcond

/-- C1 (amended): round-trip idempotence of the grid codec.  For a Layer
Model obtained by parsing a canvas (`M = parseTemplate … tpl0 …`), filling a
fresh template from `M` and re-parsing yields the same entries as `M` on both
layers of the pair, for every key — provided (amendment) that for every key of
the BASE/SHIFT pair, whenever `upper_key` of the BASE value equals the SHIFT
value (blank standing for an absent entry), the lowercase of that SHIFT value
equals the BASE value.  Without the amendment the claim fails
(`C1_roundtrip_counterexample`). -/
theorem C1_roundtrip_amended {dks : List DeadKey} {ln : Nat}
    {tpl0 tplF : List (List Char)} {rows : List Row}
    (hnd : (allKeys rows).Nodup)
    (hoff : ∀ r ∈ rows, 1 ≤ r.offset)
    (hfresh : freshTpl ln tplF rows = true)
    {M : PSt} (hM : M = parseTemplate dks ln tpl0 rows emptyPSt)
    (hcond : ∀ key ∈ allKeys rows, ln = 0 →
      upper_key ((dictGet (M.layers ln) key).getD blank)
        = (dictGet (M.layers (ln + 1)) key).getD blank →
      pyLower ((dictGet (M.layers (ln + 1)) key).getD blank)
        = (dictGet (M.layers ln) key).getD blank) :
    ∀ key L, L = ln ∨ L = ln + 1 →
      dictGet ((parseTemplate dks ln (fillTemplate M.layers ln tplF rows) rows
          emptyPSt).layers L) key
        = dictGet (M.layers L) key := by
  intro key L hL
  by_cases hmem : key ∈ allKeys rows
  · obtain ⟨j, hj, p, hp, hkey⟩ := mem_allKeys hmem
    have hroff : 1 ≤ (rows.get ⟨j, hj⟩).offset := hoff _ (List.get_mem rows j hj)
    have hi0 : 1 ≤ (rows.get ⟨j, hj⟩).offset + colOffset ln := by omega
    have hflc := freshTpl_chunk hj hfresh
    have hgb : ∀ v, dictGet (M.layers ln) key = some v → GoodCell v := by
      intro v hv
      rw [hM] at hv
      exact parse_good ln key v hv
    have hgs : ∀ v, dictGet (M.layers (ln + 1)) key = some v → GoodCell v := by
      intro v hv
      rw [hM] at hv
      exact parse_good (ln + 1) key v hv
    have hzero : ln = 0 → dictGet (M.layers ln) key = none →
        dictGet (M.layers (ln + 1)) key = none := by
      intro h0 hb
      subst h0
      rw [hM] at hb ⊢
      exact parse_zero_none hnd key hb
    have hpos : ln ≠ 0 → dictGet (M.layers (ln + 1)) key = none →
        upper_key ((dictGet (M.layers ln) key).getD blank) = blank := by
      intro hn hs
      rw [hM] at hs ⊢
      exact parse_pos_upper hn hnd key hs
    have hrc := @roundChunk M.layers ln ((tplF.drop (3 * j)).getD 2 [])
      ((tplF.drop (3 * j)).getD 1 []) ((rows.get ⟨j, hj⟩).offset + colOffset ln)
      (rows.get ⟨j, hj⟩).keys p hp hi0 hflc.1 hflc.2 key hkey
      hgb hgs hzero hpos (hcond key hmem)
    have hrepc := @parseTemplate_lookup_mem dks ln rows
      (fillTemplate M.layers ln tplF rows) emptyPSt j p hj
      (rows.get ⟨j, hj⟩) rfl hp key hkey hnd
    have hch := @fillTemplate_chunk M.layers ln rows tplF j hj hfresh
    rw [hch.1, hch.2] at hrepc
    rcases hL with rfl | rfl
    · rw [hrepc.1]
      exact hrc.1
    · rw [hrepc.2]
      exact hrc.2
  · rw [parseTemplate_lookup_not_mem hmem L, hM, parseTemplate_lookup_not_mem hmem L]

theorem C1_roundtrip_amended_witness :
    dictGet ((parseTemplate ([] : List DeadKey) 0
        (fillTemplate (parseTemplate ([] : List DeadKey) 0 tplAA rowsOne emptyPSt).layers 0
          tplFresh rowsOne) rowsOne emptyPSt).layers 0) "k1"
      = dictGet ((parseTemplate ([] : List DeadKey) 0 tplAA rowsOne emptyPSt).layers 0) "k1" :=
  C1_roundtrip_amended (by decide) (by decide) (by decide) rfl (by decide) "k1" 0 (Or.inl rfl)

/-- A well-formed one-key canvas holding a micro sign refutes the round trip
as claimed: the parsed model maps the key to the micro sign on BASE, but
filling a fresh template compresses the cell away (`upper_key` of the micro
sign is blank, which equals the absent SHIFT value), so re-parsing loses the
entry. -/
theorem C1_roundtrip_counterexample :
    (allKeys rowsOne).Nodup ∧ (∀ r ∈ rowsOne, 1 ≤ r.offset) ∧
    freshTpl 0 tplFresh rowsOne = true ∧
    dictGet ((parseTemplate ([] : List DeadKey) 0
        (fillTemplate (parseTemplate ([] : List DeadKey) 0 tplMu rowsOne emptyPSt).layers 0
          tplFresh rowsOne) rowsOne emptyPSt).layers 0) "k1"
      ≠ dictGet ((parseTemplate ([] : List DeadKey) 0 tplMu rowsOne emptyPSt).layers 0) "k1" := by
  refine ⟨by decide, by decide, by decide, by decide⟩
